import Mathlib

/-!
Verification of the MessageClearance resilient request pipeline.

This file is a shallow embedding of the OpenRouter client module of the
repository (`validateAnalysisResponse`, `parseAIResponse`, `analyzeMessage`,
the `AI_ERROR_TYPES` taxonomy and the exponential-backoff retry loop in
`src/unnamed/part_001`) and of the session state machine in
`src/src/hooks/useChat.js` (`submitMessage`, the 50-entry history cap),
together with theorems settling the specification claims about them.

JavaScript values flowing through the validator and the extractor are modelled
by `JSValue`: `undefined`, `null`, booleans, numbers (restricted to integers;
the analysis payloads carry no fractional numbers and no float arithmetic is
performed on them), strings (restricted to the escape-free fragment: rendered
strings contain no double quote, backslash or control character, and the
embedded model of `JSON.parse` rejects such characters inside string literals
instead of processing escapes), arrays, and objects (field lists in insertion
order; property lookup takes the last matching key, as JavaScript assignment
order gives for duplicate keys).
-/

namespace MC

/-- Model of the JavaScript values handled by the response pipeline. -/
inductive JSValue where
  | undef
  | null
  | bool (b : Bool)
  | num (n : Int)
  | str (s : String)
  | arr (elems : List JSValue)
  | obj (fields : List (String × JSValue))

/-- Decimal digit characters of a natural number, most significant digit
first (`Nat.digits` reversed and mapped to digit characters); `0` renders
as the single character `0`. -/
def natChars (n : Nat) : List Char :=
  if n = 0 then [Char.ofNat 48] else ((Nat.digits 10 n).reverse).map Nat.digitChar

/-- Decimal characters of an integer: optional minus sign, then digits. -/
def intChars (n : Int) : List Char :=
  if n < 0 then '-' :: natChars n.natAbs else natChars n.toNat

/-- JavaScript `String(n)` for an integer number. -/
def intStr (n : Int) : String := String.mk (intChars n)

mutual

/-- JavaScript array-to-string: elements joined by commas, with `undefined`
and `null` elements contributing empty strings (`Array.prototype.toString`). -/
def jsArrToString : List JSValue → String
  | [] => ""
  | [x] => jsElemToString x
  | x :: y :: ys => jsElemToString x ++ "," ++ jsArrToString (y :: ys)

/-- String contribution of one array element under `Array.prototype.join`. -/
def jsElemToString : JSValue → String
  | .undef => ""
  | .null => ""
  | .bool true => "true"
  | .bool false => "false"
  | .num n => intStr n
  | .str s => s
  | .arr xs => jsArrToString xs
  | .obj _ => "[object Object]"

end

/-- JavaScript `String(v)` / template-literal interpolation of a value. -/
def jsToString : JSValue → String
  | .undef => "undefined"
  | .null => "null"
  | .bool true => "true"
  | .bool false => "false"
  | .num n => intStr n
  | .str s => s
  | .arr xs => jsArrToString xs
  | .obj _ => "[object Object]"

/-- JavaScript property read `v[k]`: `undefined` on non-objects and absent
keys; the last duplicate key wins, as under assignment order. -/
def getProp (v : JSValue) (k : String) : JSValue :=
  match v with
  | .obj fs => (fs.foldl (fun acc kv => if kv.1 = k then some kv.2 else acc) none).getD .undef
  | _ => (.undef)

/-- JavaScript truthiness of a modelled value. -/
def truthy : JSValue → Bool
  | .undef => false
  | .null => false
  | .bool b => b
  | .num n => decide (n ≠ 0)
  | .str s => decide (s ≠ "")
  | .arr _ => true
  | .obj _ => true

/-- Whether `typeof v` is the string `object` (true for `null`, arrays and
plain objects). -/
def typeofIsObject : JSValue → Bool
  | .null => true
  | .arr _ => true
  | .obj _ => true
  | _ => false

/-- JavaScript `Array.isArray`. -/
def isArrayJS : JSValue → Bool
  | .arr _ => true
  | _ => false

/-- Whether `typeof v` is the string `string`. -/
def isStringJS : JSValue → Bool
  | .str _ => true
  | _ => false

/-- The verdict enumeration accepted by the validator. -/
def validVerdicts : List String := ["good_to_send", "needs_edit", "high_risk"]

/-- The check `validVerdicts.includes(data.verdict)`: membership holds only
for a string value listed in the enumeration. -/
def verdictIncluded (v : JSValue) : Bool :=
  match getProp v "verdict" with
  | .str s => validVerdicts.contains s
  | _ => false

/-- The `for (const key of requiredRewrites)` loop of the validator: the
message for the first required rewrite key whose value is not a string. -/
def firstMissingRewrite (rw : JSValue) : List String → Option String
  | [] => none
  | k :: ks =>
    if isStringJS (getProp rw k) then firstMissingRewrite rw ks
    else some ("Missing rewrite: " ++ k)

/-- Shallow embedding of `validateAnalysisResponse` (src/unnamed/part_001,
lines 125-151): `none` exactly when the candidate passes every check,
otherwise the message of the first failing check. The Lean function is total,
which embeds the never-throws contract of the source function. -/
def validateAnalysisResponse (data : JSValue) : Option String :=
  if !truthy data || !typeofIsObject data then some "Response is not an object"
  else if !verdictIncluded data then
    some ("Invalid verdict: " ++ jsToString (getProp data "verdict"))
  else if !isArrayJS (getProp data "risks") then some "Missing or invalid risks array"
  else if !truthy (getProp data "rewrites") || !typeofIsObject (getProp data "rewrites") then
    some "Missing or invalid rewrites object"
  else firstMissingRewrite (getProp data "rewrites") ["short", "warm", "confident"]

/-- Spec-side conformity predicate, in the claim's own terms: the candidate is
a non-null object, its verdict is in the enumeration, its risks is an array,
and its rewrites carries string-typed short, warm and confident entries. -/
def conformingCandidate (v : JSValue) : Bool :=
  truthy v && typeofIsObject v && verdictIncluded v && isArrayJS (getProp v "risks")
    && isStringJS (getProp (getProp v "rewrites") "short")
    && isStringJS (getProp (getProp v "rewrites") "warm")
    && isStringJS (getProp (getProp v "rewrites") "confident")

/-- Only plain objects answer string-typed property reads. -/
theorem isString_getProp_obj {v : JSValue} {k : String}
    (h : isStringJS (getProp v k) = true) : truthy v = true ∧ typeofIsObject v = true := by
  cases v <;> simp_all [getProp, isStringJS, truthy, typeofIsObject]

/-- C8: the validator returns null exactly on fully conforming candidates,
and otherwise the message of the first failing check, checked in source
order with short-circuiting: non-null object, verdict enumeration, risks
array, rewrites object, then each required rewrite key. Totality of the Lean
embedding is the never-throws half of the claim. -/
theorem validateAnalysisResponse_spec (v : JSValue) :
    (validateAnalysisResponse v = none ↔ conformingCandidate v = true)
    ∧ ((truthy v && typeofIsObject v) = false →
        validateAnalysisResponse v = some "Response is not an object")
    ∧ ((truthy v && typeofIsObject v) = true → verdictIncluded v = false →
        validateAnalysisResponse v = some ("Invalid verdict: " ++ jsToString (getProp v "verdict")))
    ∧ ((truthy v && typeofIsObject v) = true → verdictIncluded v = true →
        isArrayJS (getProp v "risks") = false →
        validateAnalysisResponse v = some "Missing or invalid risks array")
    ∧ ((truthy v && typeofIsObject v) = true → verdictIncluded v = true →
        isArrayJS (getProp v "risks") = true →
        (truthy (getProp v "rewrites") && typeofIsObject (getProp v "rewrites")) = false →
        validateAnalysisResponse v = some "Missing or invalid rewrites object")
    ∧ ((truthy v && typeofIsObject v) = true → verdictIncluded v = true →
        isArrayJS (getProp v "risks") = true →
        (truthy (getProp v "rewrites") && typeofIsObject (getProp v "rewrites")) = true →
        isStringJS (getProp (getProp v "rewrites") "short") = false →
        validateAnalysisResponse v = some "Missing rewrite: short")
    ∧ ((truthy v && typeofIsObject v) = true → verdictIncluded v = true →
        isArrayJS (getProp v "risks") = true →
        isStringJS (getProp (getProp v "rewrites") "short") = true →
        isStringJS (getProp (getProp v "rewrites") "warm") = false →
        validateAnalysisResponse v = some "Missing rewrite: warm")
    ∧ ((truthy v && typeofIsObject v) = true → verdictIncluded v = true →
        isArrayJS (getProp v "risks") = true →
        isStringJS (getProp (getProp v "rewrites") "short") = true →
        isStringJS (getProp (getProp v "rewrites") "warm") = true →
        isStringJS (getProp (getProp v "rewrites") "confident") = false →
        validateAnalysisResponse v = some "Missing rewrite: confident") := by
  refine ⟨?_, ?_, ?_, ?_, ?_, ?_, ?_, ?_⟩
  · constructor
    · intro h
      cases hA : truthy v with
      | false => simp [validateAnalysisResponse, hA] at h
      | true =>
      cases hB : typeofIsObject v with
      | false => simp [validateAnalysisResponse, hA, hB] at h
      | true =>
      cases h2 : verdictIncluded v with
      | false => simp [validateAnalysisResponse, hA, hB, h2] at h
      | true =>
      cases h3 : isArrayJS (getProp v "risks") with
      | false => simp [validateAnalysisResponse, hA, hB, h2, h3] at h
      | true =>
      cases h5 : isStringJS (getProp (getProp v "rewrites") "short") with
      | false =>
        cases h4a : truthy (getProp v "rewrites") with
        | false => simp [validateAnalysisResponse, hA, hB, h2, h3, h4a] at h
        | true =>
          cases h4b : typeofIsObject (getProp v "rewrites") with
          | false => simp [validateAnalysisResponse, hA, hB, h2, h3, h4a, h4b] at h
          | true =>
            simp [validateAnalysisResponse, hA, hB, h2, h3, h4a, h4b,
              firstMissingRewrite, h5] at h
      | true =>
      have hrwObj := isString_getProp_obj h5
      cases h6 : isStringJS (getProp (getProp v "rewrites") "warm") with
      | false =>
        simp [validateAnalysisResponse, hA, hB, h2, h3, hrwObj.1, hrwObj.2,
          firstMissingRewrite, h5, h6] at h
      | true =>
      cases h7 : isStringJS (getProp (getProp v "rewrites") "confident") with
      | false =>
        simp [validateAnalysisResponse, hA, hB, h2, h3, hrwObj.1, hrwObj.2,
          firstMissingRewrite, h5, h6, h7] at h
      | true => simp [conformingCandidate, hA, hB, h2, h3, h5, h6, h7]
    · intro h
      simp only [conformingCandidate, Bool.and_eq_true] at h
      obtain ⟨⟨⟨⟨⟨⟨h1a, h1b⟩, h2⟩, h3⟩, h5⟩, h6⟩, h7⟩ := h
      have hrw := isString_getProp_obj h5
      simp [validateAnalysisResponse, h1a, h1b, h2, h3, hrw.1, hrw.2,
        firstMissingRewrite, h5, h6, h7]
  · intro h
    rcases Bool.and_eq_false_iff.mp h with h1 | h1 <;>
      simp [validateAnalysisResponse, h1]
  · intro h1 h2
    simp only [Bool.and_eq_true] at h1
    simp [validateAnalysisResponse, h1.1, h1.2, h2]
  · intro h1 h2 h3
    simp only [Bool.and_eq_true] at h1
    simp [validateAnalysisResponse, h1.1, h1.2, h2, h3]
  · intro h1 h2 h3 h4
    simp only [Bool.and_eq_true] at h1
    rcases Bool.and_eq_false_iff.mp h4 with h5 | h5 <;>
      simp [validateAnalysisResponse, h1.1, h1.2, h2, h3, h5]
  · intro h1 h2 h3 h4 h5
    simp only [Bool.and_eq_true] at h1
    simp only [Bool.and_eq_true] at h4
    simp [validateAnalysisResponse, h1.1, h1.2, h2, h3, h4.1, h4.2,
      firstMissingRewrite, h5]
  · intro h1 h2 h3 h5 h6
    simp only [Bool.and_eq_true] at h1
    have hrw := isString_getProp_obj h5
    simp [validateAnalysisResponse, h1.1, h1.2, h2, h3, hrw.1, hrw.2,
      firstMissingRewrite, h5, h6]
  · intro h1 h2 h3 h5 h6 h7
    simp only [Bool.and_eq_true] at h1
    have hrw := isString_getProp_obj h5
    simp [validateAnalysisResponse, h1.1, h1.2, h2, h3, hrw.1, hrw.2,
      firstMissingRewrite, h5, h6, h7]

/-- A fully conforming candidate, used to exercise the validator. -/
def goodCandidate : JSValue :=
  .obj [("verdict", .str "good_to_send"), ("verdictReason", .str "clear"),
    ("risks", .arr []), ("missing", .arr []),
    ("rewrites", .obj [("short", .str "a"), ("warm", .str "b"), ("confident", .str "c")]),
    ("suggestedOpener", .str "d")]

/-- A candidate whose rewrites lacks the warm entry. -/
def noWarmCandidate : JSValue :=
  .obj [("verdict", .str "needs_edit"), ("risks", .arr []),
    ("rewrites", .obj [("short", .str "a"), ("confident", .str "c")])]

/-- Witness for C8: the validator accepts a concrete conforming candidate and
reports the first missing rewrite key on a concrete failing one. -/
theorem validateAnalysisResponse_spec_witness :
    validateAnalysisResponse goodCandidate = none
    ∧ validateAnalysisResponse noWarmCandidate = some "Missing rewrite: warm" := by
  constructor
  · exact (validateAnalysisResponse_spec goodCandidate).1.mpr rfl
  · exact (validateAnalysisResponse_spec noWarmCandidate).2.2.2.2.2.2.1 rfl rfl rfl rfl rfl

/-- Characters that are awkward under the house style are named once. -/
def lbrace : Char := Char.ofNat 123

/-- The closing curly brace character. -/
def rbrace : Char := Char.ofNat 125

/-- The double quote character. -/
def dquote : Char := Char.ofNat 34

/-- The backslash character. -/
def bslash : Char := Char.ofNat 92

/-- The backtick character. -/
def btick : Char := Char.ofNat 96

/-- JSON insignificant whitespace (space, tab, line feed, carriage return). -/
def isJsonWs (c : Char) : Bool := c = ' ' || c = '\t' || c = '\n' || c = '\r'

/-- Drop leading JSON whitespace. -/
def skipWs (cs : List Char) : List Char := cs.dropWhile isJsonWs

/-- Numeric value of a decimal digit character, if it is one. -/
def digitVal (c : Char) : Option Nat :=
  if 48 ≤ c.toNat ∧ c.toNat ≤ 57 then some (c.toNat - 48) else none

/-- Longest leading run of decimal digits, as numeric values, plus the rest. -/
def takeDigitVals : List Char → List Nat × List Char
  | [] => ([], [])
  | c :: cs =>
    match digitVal c with
    | some d => let p := takeDigitVals cs; (d :: p.1, p.2)
    | none => ([], c :: cs)

/-- Value of a most-significant-first digit list. -/
def decValue (ds : List Nat) : Nat := ds.foldl (fun a d => 10 * a + d) 0

/-- Parse a JSON natural-number literal (digits, no leading zero). This is the
integer fragment of the JSON number grammar; fractions and exponents are
outside the modelled fragment and rejected. -/
def parseNatNum (cs : List Char) : Option (Nat × List Char) :=
  match takeDigitVals cs with
  | ([], _) => none
  | (d :: ds, r) => if d = 0 ∧ ds ≠ [] then none else some (decValue (d :: ds), r)

/-- Parse the body of a JSON string after the opening quote. Escapes and
control characters are outside the modelled fragment and rejected. -/
def parseStrChars : List Char → Option (List Char × List Char)
  | [] => none
  | c :: cs =>
    if c = dquote then some ([], cs)
    else if c = bslash || c.toNat < 32 then none
    else
      match parseStrChars cs with
      | some (ks, r) => some (c :: ks, r)
      | none => none

mutual

/-- Fuel-indexed model of `JSON.parse` on the escape-free, integer-number
fragment: one JSON value, returning the value and the unconsumed rest. -/
def parseVal : Nat → List Char → Option (JSValue × List Char)
  | 0, _ => none
  | fuel + 1, cs0 =>
    match skipWs cs0 with
    | [] => none
    | c :: cs =>
      if c = lbrace then
        match skipWs cs with
        | [] => none
        | d :: cs2 =>
          if d = rbrace then some (.obj [], cs2)
          else
            match parseMembers fuel (d :: cs2) with
            | some (fs, r) => some (.obj fs, r)
            | none => none
      else if c = '[' then
        match skipWs cs with
        | [] => none
        | d :: cs2 =>
          if d = ']' then some (.arr [], cs2)
          else
            match parseItems fuel (d :: cs2) with
            | some (xs, r) => some (.arr xs, r)
            | none => none
      else if c = dquote then
        match parseStrChars cs with
        | some (ks, r) => some (.str (String.mk ks), r)
        | none => none
      else if c = 't' then
        match cs with
        | 'r' :: 'u' :: 'e' :: r => some (.bool true, r)
        | _ => none
      else if c = 'f' then
        match cs with
        | 'a' :: 'l' :: 's' :: 'e' :: r => some (.bool false, r)
        | _ => none
      else if c = 'n' then
        match cs with
        | 'u' :: 'l' :: 'l' :: r => some (.null, r)
        | _ => none
      else if c = '-' then
        match parseNatNum cs with
        | some (k, r) => some (.num (-(k : Int)), r)
        | none => none
      else
        match parseNatNum (c :: cs) with
        | some (k, r) => some (.num (k : Int), r)
        | none => none

/-- One or more comma-separated array items followed by a closing bracket. -/
def parseItems : Nat → List Char → Option (List JSValue × List Char)
  | 0, _ => none
  | fuel + 1, cs =>
    match parseVal fuel cs with
    | some (v, r1) =>
      match skipWs r1 with
      | ',' :: r2 =>
        match parseItems fuel r2 with
        | some (xs, r) => some (v :: xs, r)
        | none => none
      | d :: r2 => if d = ']' then some ([v], r2) else none
      | [] => none
    | none => none

/-- One or more comma-separated object members followed by a closing brace. -/
def parseMembers : Nat → List Char → Option (List (String × JSValue) × List Char)
  | 0, _ => none
  | fuel + 1, cs =>
    match skipWs cs with
    | k0 :: cs1 =>
      if k0 = dquote then
        match parseStrChars cs1 with
        | some (ks, r1) =>
          match skipWs r1 with
          | ':' :: r2 =>
            match parseVal fuel r2 with
            | some (v, r3) =>
              match skipWs r3 with
              | ',' :: r4 =>
                match parseMembers fuel r4 with
                | some (fs, r) => some ((String.mk ks, v) :: fs, r)
                | none => none
              | d :: r4 => if d = rbrace then some ([(String.mk ks, v)], r4) else none
              | [] => none
            | none => none
          | _ => none
        | none => none
      else none
    | [] => none

end

/-- Model of `JSON.parse` on a character list: parse one value and require
only whitespace to remain, as `JSON.parse` does. The fuel argument is an
artifact of totality; the round-trip theorems show it is generous enough. -/
def jsonParseChars (cs : List Char) : Option JSValue :=
  match parseVal (2 * cs.length + 2) cs with
  | some (v, rest) => if (skipWs rest).isEmpty then some v else none
  | none => none

/-- Model of `JSON.parse` on a string. -/
def jsonParse (s : String) : Option JSValue := jsonParseChars s.data

mutual

/-- Render a modelled value as compact JSON text, mirroring what a model
reply or `JSON.stringify` would contain for the modelled fragment. -/
def renderChars : JSValue → List Char
  | .undef => []
  | .null => ['n', 'u', 'l', 'l']
  | .num n => intChars n
  | .bool true => ['t', 'r', 'u', 'e']
  | .bool false => ['f', 'a', 'l', 's', 'e']
  | .str s => dquote :: s.data ++ [dquote]
  | .arr xs => '[' :: renderItems xs
  | .obj fs => lbrace :: renderMembers fs

/-- Array items rendered with separating commas and the closing bracket. -/
def renderItems : List JSValue → List Char
  | [] => [']']
  | [x] => renderChars x ++ [']']
  | x :: y :: ys => renderChars x ++ ',' :: renderItems (y :: ys)

/-- Object members rendered with separating commas and the closing brace. -/
def renderMembers : List (String × JSValue) → List Char
  | [] => [rbrace]
  | [(k, v)] => dquote :: k.data ++ dquote :: ':' :: renderChars v ++ [rbrace]
  | (k, v) :: m :: ms =>
    dquote :: k.data ++ dquote :: ':' :: renderChars v ++ ',' :: renderMembers (m :: ms)

end

/-- Render a modelled value as a JSON string. -/
def render (v : JSValue) : String := String.mk (renderChars v)

/-- Strings in the modelled fragment: no quote, no backslash, no control
characters. -/
def wfStringChars (s : String) : Bool :=
  s.data.all fun c => c != dquote && c != bslash && decide (32 ≤ c.toNat)

mutual

/-- Values in the modelled fragment: no `undefined`, and every string (and
key) escape-free. Rendered well-formed values parse back losslessly. -/
def wfJSON : JSValue → Bool
  | .undef => false
  | .null => true
  | .bool _ => true
  | .num _ => true
  | .str s => wfStringChars s
  | .arr xs => wfList xs
  | .obj fs => wfFields fs

/-- Well-formedness of each array element. -/
def wfList : List JSValue → Bool
  | [] => true
  | x :: xs => wfJSON x && wfList xs

/-- Well-formedness of each object member. -/
def wfFields : List (String × JSValue) → Bool
  | [] => true
  | (k, v) :: fs => wfStringChars k && wfJSON v && wfFields fs

end

/-- A string is its character list repackaged. -/
theorem string_mk_data (s : String) : String.mk s.data = s := rfl

/-- Input whose head cannot continue a digit run. -/
def noDigitHead : List Char → Bool
  | [] => true
  | c :: _ => (digitVal c).isNone

/-- Digit characters decode to their value. -/
theorem digitChar_digitVal {d : Nat} (h : d < 10) : digitVal (Nat.digitChar d) = some d := by
  interval_cases d <;> decide

/-- Digit characters are not whitespace and not any of the dispatch or
delimiter characters of the grammar. -/
theorem digitChar_not_special {d : Nat} (h : d < 10) :
    isJsonWs (Nat.digitChar d) = false ∧ Nat.digitChar d ≠ lbrace ∧ Nat.digitChar d ≠ '['
    ∧ Nat.digitChar d ≠ dquote ∧ Nat.digitChar d ≠ 't' ∧ Nat.digitChar d ≠ 'f'
    ∧ Nat.digitChar d ≠ 'n' ∧ Nat.digitChar d ≠ '-' ∧ Nat.digitChar d ≠ ']'
    ∧ Nat.digitChar d ≠ rbrace ∧ Nat.digitChar d ≠ ',' := by
  interval_cases d <;> exact (by decide)

/-- A digit run stops at a non-digit head. -/
theorem takeDigitVals_stop {cs : List Char} (h : noDigitHead cs = true) :
    takeDigitVals cs = ([], cs) := by
  cases cs with
  | nil => rfl
  | cons c cs =>
    simp only [noDigitHead, Option.isNone_iff_eq_none] at h
    simp [takeDigitVals, h]

/-- Reading back a rendered digit run recovers the digit values. -/
theorem takeDigitVals_run {L : List Nat} (hL : ∀ d ∈ L, d < 10) {rest : List Char}
    (hr : noDigitHead rest = true) :
    takeDigitVals (L.map Nat.digitChar ++ rest) = (L, rest) := by
  induction L with
  | nil => simpa using takeDigitVals_stop hr
  | cons d ds ih =>
    have hd := digitChar_digitVal (hL d (by simp))
    simp only [List.map_cons, List.cons_append, takeDigitVals, hd, List.append_eq]
    rw [ih fun x hx => hL x (by simp [hx])]

/-- Folding most-significant-first digits is positional evaluation. -/
theorem foldl_reverse_ofDigits (ds : List Nat) (a : Nat) :
    (ds.reverse).foldl (fun x d => 10 * x + d) a = a * 10 ^ ds.length + Nat.ofDigits 10 ds := by
  induction ds generalizing a with
  | nil => simp [Nat.ofDigits]
  | cons d ds ih =>
    simp only [List.reverse_cons, List.foldl_append, List.foldl_cons, List.foldl_nil,
      Nat.ofDigits_cons, List.length_cons]
    rw [ih]
    ring

/-- Positional evaluation inverts the decimal digit expansion. -/
theorem decValue_digits (n : Nat) : decValue ((Nat.digits 10 n).reverse) = n := by
  have h := foldl_reverse_ofDigits (Nat.digits 10 n) 0
  simp only [decValue, h, Nat.ofDigits_digits, Nat.zero_mul, Nat.zero_add]

/-- The rendered digits of a natural number begin with a digit character. -/
theorem natChars_shape (n : Nat) :
    ∃ d t, natChars n = Nat.digitChar d :: t ∧ d < 10 := by
  by_cases h0 : n = 0
  · exact ⟨0, [], by rw [h0]; decide, by norm_num⟩
  · rcases hL : (Nat.digits 10 n).reverse with _ | ⟨d, ds⟩
    · rw [List.reverse_eq_nil_iff] at hL
      exact absurd hL (Nat.digits_ne_nil_iff_ne_zero.mpr h0)
    · refine ⟨d, ds.map Nat.digitChar, ?_, ?_⟩
      · simp [natChars, h0, hL]
      · have hmem : d ∈ Nat.digits 10 n := by
          rw [← List.mem_reverse, hL]; simp
        exact Nat.digits_lt_base (by norm_num) hmem

/-- Reading back a rendered natural number recovers it. -/
theorem parseNatNum_natChars (n : Nat) {rest : List Char} (hr : noDigitHead rest = true) :
    parseNatNum (natChars n ++ rest) = some (n, rest) := by
  by_cases h0 : n = 0
  · subst h0
    have h48 : digitVal (Char.ofNat 48) = some 0 := by decide
    simp [natChars, parseNatNum, takeDigitVals, h48, takeDigitVals_stop hr, decValue]
  · rcases hL : (Nat.digits 10 n).reverse with _ | ⟨d, ds⟩
    · rw [List.reverse_eq_nil_iff] at hL
      exact absurd hL (Nat.digits_ne_nil_iff_ne_zero.mpr h0)
    · have hlt : ∀ x ∈ (Nat.digits 10 n).reverse, x < 10 := fun x hx =>
        Nat.digits_lt_base (by norm_num) (List.mem_reverse.mp hx)
    -- the run of rendered digits parses back to the digit values
      have hrun := takeDigitVals_run (L := (Nat.digits 10 n).reverse) hlt hr
      have hne : Nat.digits 10 n ≠ [] := Nat.digits_ne_nil_iff_ne_zero.mpr h0
      have hd0 : d ≠ 0 ∨ ds = [] := by
        cases ds with
        | nil => exact Or.inr rfl
        | cons m ms =>
          left
          have hlast : (Nat.digits 10 n).getLast hne ≠ 0 :=
            Nat.getLast_digit_ne_zero 10 h0
          have hrew : Nat.digits 10 n = (m :: ms).reverse ++ [d] := by
            have := congrArg List.reverse hL
            simpa [List.reverse_reverse] using this
          have h1 : (Nat.digits 10 n).getLast? = some d := by
            rw [hrew]
            exact List.getLast?_concat _
          have h2 := List.getLast?_eq_getLast _ hne
          rw [h1] at h2
          have h3 : (Nat.digits 10 n).getLast hne = d := (Option.some.inj h2).symm
          intro hdz
          exact hlast (h3.trans hdz)
      have hval : decValue (d :: ds) = n := by
        have := decValue_digits n
        rw [hL] at this
        exact this
      rw [hL] at hrun
      have hrun' : takeDigitVals (Nat.digitChar d :: (List.map Nat.digitChar ds ++ rest))
          = (d :: ds, rest) := by simpa using hrun
      simp only [natChars, if_neg h0, hL, List.map_cons, List.cons_append, parseNatNum, hrun']
      rcases hd0 with hd | hd
      · simp [hd, hval]
      · subst hd
        simp [hval]

/-- Reading back a rendered string body recovers it. -/
theorem parseStrChars_append {ks : List Char}
    (h : ∀ c ∈ ks, (c != dquote && c != bslash && decide (32 ≤ c.toNat)) = true)
    (rest : List Char) :
    parseStrChars (ks ++ dquote :: rest) = some (ks, rest) := by
  induction ks with
  | nil => simp [parseStrChars]
  | cons c ks ih =>
    have hc := h c (by simp)
    simp only [Bool.and_eq_true, bne_iff_ne, ne_eq, decide_eq_true_eq] at hc
    have hnotlow : ¬ c.toNat < 32 := by omega
    simp only [List.cons_append, parseStrChars, if_neg hc.1.1]
    rw [if_neg (by simp [hc.1.2, hnotlow])]
    simp only [List.append_eq]
    rw [ih fun x hx => h x (by simp [hx])]

/-- Dropping leading whitespace does nothing on a non-whitespace head. -/
theorem skipWs_cons (c : Char) (l : List Char) (h : isJsonWs c = false) :
    skipWs (c :: l) = c :: l := by
  simp [skipWs, h]

/-- Rendered integers are never empty. -/
theorem intChars_length_pos (n : Int) : 0 < (intChars n).length := by
  by_cases hn : n < 0
  · simp [intChars, hn]
  · obtain ⟨d, t, ht, _⟩ := natChars_shape n.toNat
    simp [intChars, hn, ht]

/-- Well-formed values render to a nonempty text whose head is neither
whitespace nor a closing bracket. -/
theorem renderChars_head (v : JSValue) (h : wfJSON v = true) :
    ∃ c t, renderChars v = c :: t ∧ isJsonWs c = false ∧ c ≠ ']' := by
  cases v with
  | undef => simp [wfJSON] at h
  | null => exact ⟨'n', ['u', 'l', 'l'], rfl, by decide, by decide⟩
  | bool b =>
    cases b with
    | false => exact ⟨'f', ['a', 'l', 's', 'e'], rfl, by decide, by decide⟩
    | true => exact ⟨'t', ['r', 'u', 'e'], rfl, by decide, by decide⟩
  | num n =>
    by_cases hn : n < 0
    · exact ⟨'-', natChars n.natAbs, by simp [renderChars, intChars, hn], by decide, by decide⟩
    · obtain ⟨d, t, ht, hd⟩ := natChars_shape n.toNat
      have props := digitChar_not_special hd
      exact ⟨Nat.digitChar d, t, by simp [renderChars, intChars, hn, ht],
        props.1, props.2.2.2.2.2.2.2.2.1⟩
  | str s => exact ⟨dquote, s.data ++ [dquote], rfl, by decide, by decide⟩
  | arr xs => exact ⟨'[', renderItems xs, rfl, by decide, by decide⟩
  | obj fs => exact ⟨lbrace, renderMembers fs, rfl, by decide, by decide⟩

/-- Dispatch of the value parser on an opening bracket whose array is not
empty. -/
theorem parseVal_arrDispatch (f : Nat) (d : Char) (tail2 : List Char)
    (hws : isJsonWs d = false) (hnb : d ≠ ']') :
    parseVal (f + 1) ('[' :: d :: tail2) =
      match parseItems f (d :: tail2) with
      | some (xs, r) => some (JSValue.arr xs, r)
      | none => none := by
  show (match skipWs (d :: tail2) with
    | [] => none
    | e :: cs2 =>
      if e = ']' then some (JSValue.arr [], cs2)
      else
        match parseItems f (e :: cs2) with
        | some (xs, r) => some (JSValue.arr xs, r)
        | none => none) = _
  rw [skipWs_cons d tail2 hws]
  simp [hnb]

/-- Dispatch of the value parser on an opening brace whose object is not
empty. -/
theorem parseVal_objDispatch (f : Nat) (d : Char) (tail2 : List Char)
    (hws : isJsonWs d = false) (hnb : d ≠ rbrace) :
    parseVal (f + 1) (lbrace :: d :: tail2) =
      match parseMembers f (d :: tail2) with
      | some (fs, r) => some (JSValue.obj fs, r)
      | none => none := by
  show (match skipWs (d :: tail2) with
    | [] => none
    | e :: cs2 =>
      if e = rbrace then some (JSValue.obj [], cs2)
      else
        match parseMembers f (e :: cs2) with
        | some (fs, r) => some (JSValue.obj fs, r)
        | none => none) = _
  rw [skipWs_cons d tail2 hws]
  simp [hnb]

/-- Dispatch of the value parser on an opening quote. -/
theorem parseVal_strDispatch (f : Nat) (cs : List Char) :
    parseVal (f + 1) (dquote :: cs) =
      match parseStrChars cs with
      | some (ks, r) => some (JSValue.str (String.mk ks), r)
      | none => none := rfl

/-- Dispatch of the value parser on a minus sign. -/
theorem parseVal_negDispatch (f : Nat) (cs : List Char) :
    parseVal (f + 1) ('-' :: cs) =
      match parseNatNum cs with
      | some (k, r) => some (JSValue.num (-(k : Int)), r)
      | none => none := rfl

/-- Dispatch of the value parser on a decimal digit. -/
theorem parseVal_digitDispatch (f : Nat) {d : Nat} (hd : d < 10) (cs : List Char) :
    parseVal (f + 1) (Nat.digitChar d :: cs) =
      match parseNatNum (Nat.digitChar d :: cs) with
      | some (k, r) => some (JSValue.num (k : Int), r)
      | none => none := by
  interval_cases d <;> rfl

mutual

/-- Parsing the rendering of a well-formed value consumes exactly the
rendering and recovers the value, for any fuel at least twice the input
length and any remainder that cannot extend a number literal. -/
theorem parseVal_render : ∀ (v : JSValue), wfJSON v = true →
    ∀ (rest : List Char) (fuel : Nat), noDigitHead rest = true →
    2 * (renderChars v ++ rest).length ≤ fuel →
    parseVal fuel (renderChars v ++ rest) = some (v, rest)
  | .undef, hwf => by simp [wfJSON] at hwf
  | .null, _ => by
    intro rest fuel hrest hfuel
    obtain ⟨f, rfl⟩ : ∃ f, fuel = f + 1 :=
      ⟨fuel - 1, by simp [renderChars] at hfuel; omega⟩
    rfl
  | .bool true, _ => by
    intro rest fuel hrest hfuel
    obtain ⟨f, rfl⟩ : ∃ f, fuel = f + 1 :=
      ⟨fuel - 1, by simp [renderChars] at hfuel; omega⟩
    rfl
  | .bool false, _ => by
    intro rest fuel hrest hfuel
    obtain ⟨f, rfl⟩ : ∃ f, fuel = f + 1 :=
      ⟨fuel - 1, by simp [renderChars] at hfuel; omega⟩
    rfl
  | .num n, _ => by
    intro rest fuel hrest hfuel
    have hpos : 0 < (intChars n).length := intChars_length_pos n
    have hlen : (renderChars (.num n) ++ rest).length = (intChars n).length + rest.length := by
      simp [renderChars]
    obtain ⟨f, rfl⟩ : ∃ f, fuel = f + 1 := ⟨fuel - 1, by omega⟩
    by_cases hn : n < 0
    · have hsh : renderChars (.num n) ++ rest = '-' :: (natChars n.natAbs ++ rest) := by
        simp [renderChars, intChars, hn]
      have hnum := parseNatNum_natChars n.natAbs hrest
      have hneg : -((n.natAbs : Nat) : Int) = n := by omega
      rw [hsh, parseVal_negDispatch, hnum]
      show some (JSValue.num (-((n.natAbs : Nat) : Int)), rest) = some (JSValue.num n, rest)
      rw [hneg]
    · obtain ⟨d, t, ht, hd⟩ := natChars_shape n.toNat
      have hsh : renderChars (.num n) ++ rest = Nat.digitChar d :: (t ++ rest) := by
        simp [renderChars, intChars, hn, ht]
      have hnum := parseNatNum_natChars n.toNat hrest
      have hback : Nat.digitChar d :: (t ++ rest) = natChars n.toNat ++ rest := by
        rw [ht, List.cons_append]
      have hnn : ((n.toNat : Nat) : Int) = n := by omega
      rw [hsh, parseVal_digitDispatch f hd, hback, hnum]
      show some (JSValue.num ((n.toNat : Nat) : Int), rest) = some (JSValue.num n, rest)
      rw [hnn]
  | .str s, hwf => by
    intro rest fuel hrest hfuel
    have hwfs : ∀ c ∈ s.data, (c != dquote && c != bslash && decide (32 ≤ c.toNat)) = true := by
      simp only [wfJSON, wfStringChars, List.all_eq_true] at hwf
      exact hwf
    obtain ⟨f, rfl⟩ : ∃ f, fuel = f + 1 :=
      ⟨fuel - 1, by simp [renderChars] at hfuel; omega⟩
    have hsh : renderChars (.str s) ++ rest = dquote :: (s.data ++ (dquote :: rest)) := by
      simp [renderChars, List.append_assoc]
    have hstr := parseStrChars_append hwfs rest
    rw [hsh, parseVal_strDispatch, hstr]
  | .arr [], _ => by
    intro rest fuel hrest hfuel
    obtain ⟨f, rfl⟩ : ∃ f, fuel = f + 1 :=
      ⟨fuel - 1, by simp [renderChars, renderItems] at hfuel; omega⟩
    rfl
  | .arr (x :: xs), hwf => by
    intro rest fuel hrest hfuel
    have hw : wfJSON x = true ∧ wfList xs = true := by
      simpa [wfJSON, wfList, Bool.and_eq_true] using hwf
    have hlen : (renderChars (.arr (x :: xs)) ++ rest).length
        = 1 + (renderItems (x :: xs) ++ rest).length := by
      simp only [renderChars, List.cons_append, List.length_cons, List.length_append]
      omega
    obtain ⟨f, rfl⟩ : ∃ f, fuel = f + 1 := ⟨fuel - 1, by omega⟩
    obtain ⟨c0, t0, hrx, hcw, hcb⟩ := renderChars_head x hw.1
    obtain ⟨tl, htl⟩ : ∃ tl, renderItems (x :: xs) = renderChars x ++ tl := by
      cases xs with
      | nil => exact ⟨[']'], rfl⟩
      | cons y ys => exact ⟨',' :: renderItems (y :: ys), rfl⟩
    have hform : renderItems (x :: xs) ++ rest = c0 :: (t0 ++ (tl ++ rest)) := by
      rw [htl, hrx]
      simp [List.append_assoc]
    have hitems := parseItems_render (x :: xs) (by simp)
      (by simp [wfList, hw.1, hw.2]) rest f (by omega)
    have hsh : renderChars (.arr (x :: xs)) ++ rest
        = '[' :: (renderItems (x :: xs) ++ rest) := by simp [renderChars]
    rw [hsh, hform, parseVal_arrDispatch f c0 _ hcw hcb, ← hform, hitems]
  | .obj [], _ => by
    intro rest fuel hrest hfuel
    obtain ⟨f, rfl⟩ : ∃ f, fuel = f + 1 :=
      ⟨fuel - 1, by simp [renderChars, renderMembers] at hfuel; omega⟩
    rfl
  | .obj (p :: fs), hwf => by
    intro rest fuel hrest hfuel
    have hlen : (renderChars (.obj (p :: fs)) ++ rest).length
        = 1 + (renderMembers (p :: fs) ++ rest).length := by
      simp only [renderChars, List.cons_append, List.length_cons, List.length_append]
      omega
    obtain ⟨f, rfl⟩ : ∃ f, fuel = f + 1 := ⟨fuel - 1, by omega⟩
    obtain ⟨tl, htl⟩ : ∃ tl, renderMembers (p :: fs) = dquote :: tl := by
      obtain ⟨k, v⟩ := p
      cases fs with
      | nil => exact ⟨k.data ++ dquote :: ':' :: renderChars v ++ [rbrace], rfl⟩
      | cons q qs =>
        exact ⟨k.data ++ dquote :: ':' :: renderChars v ++ ',' :: renderMembers (q :: qs), rfl⟩
    have hform : renderMembers (p :: fs) ++ rest = dquote :: (tl ++ rest) := by
      rw [htl]
      simp
    have hmembers := parseMembers_render (p :: fs) (by simp)
      (by simpa [wfJSON] using hwf) rest f (by omega)
    have hsh : renderChars (.obj (p :: fs)) ++ rest
        = lbrace :: (renderMembers (p :: fs) ++ rest) := by simp [renderChars]
    rw [hsh, hform, parseVal_objDispatch f dquote _ (by decide) (by decide), ← hform, hmembers]
  termination_by v _ => sizeOf v

/-- Parsing the rendering of a nonempty well-formed item list consumes the
items and the closing bracket. -/
theorem parseItems_render : ∀ (xs : List JSValue), xs ≠ [] → wfList xs = true →
    ∀ (rest : List Char) (fuel : Nat),
    2 * (renderItems xs ++ rest).length + 1 ≤ fuel →
    parseItems fuel (renderItems xs ++ rest) = some (xs, rest)
  | [], hne, _ => absurd rfl hne
  | [x], _, hwf => by
    intro rest fuel hfuel
    have hwx : wfJSON x = true := by simpa [wfList] using hwf
    obtain ⟨g, rfl⟩ : ∃ g, fuel = g + 1 := ⟨fuel - 1, by omega⟩
    have hsh : renderItems [x] ++ rest = renderChars x ++ (']' :: rest) := by
      simp [renderItems, List.append_assoc]
    have hlen : (renderItems [x] ++ rest).length = (renderChars x ++ (']' :: rest)).length := by
      rw [hsh]
    have hv := parseVal_render x hwx (']' :: rest) g rfl (by omega)
    rw [hsh]
    simp only [parseItems, hv]
    rw [skipWs_cons ']' rest (by decide)]
    rfl
  | x :: y :: ys, _, hwf => by
    intro rest fuel hfuel
    have hw : wfJSON x = true ∧ wfList (y :: ys) = true := by
      simpa [wfList, Bool.and_eq_true] using hwf
    obtain ⟨g, rfl⟩ : ∃ g, fuel = g + 1 := ⟨fuel - 1, by omega⟩
    have hsh : renderItems (x :: y :: ys) ++ rest
        = renderChars x ++ (',' :: (renderItems (y :: ys) ++ rest)) := by
      simp [renderItems, List.append_assoc]
    have hlen : (renderItems (x :: y :: ys) ++ rest).length
        = (renderChars x ++ (',' :: (renderItems (y :: ys) ++ rest))).length := by
      rw [hsh]
    have hv := parseVal_render x hw.1 (',' :: (renderItems (y :: ys) ++ rest)) g rfl (by omega)
    have hrec := parseItems_render (y :: ys) (by simp) hw.2 rest g (by
      have h1 : (renderChars x ++ (',' :: (renderItems (y :: ys) ++ rest))).length
          = (renderChars x).length + 1 + (renderItems (y :: ys) ++ rest).length := by
        simp
        omega
      omega)
    rw [hsh]
    simp only [parseItems, hv]
    rw [skipWs_cons ',' _ (by decide)]
    show (match parseItems g (renderItems (y :: ys) ++ rest) with
      | some (xs, r) => some (x :: xs, r)
      | none => none) = some (x :: y :: ys, rest)
    rw [hrec]
  termination_by xs _ _ => sizeOf xs

/-- Parsing the rendering of a nonempty well-formed member list consumes the
members and the closing brace. -/
theorem parseMembers_render : ∀ (fs : List (String × JSValue)), fs ≠ [] → wfFields fs = true →
    ∀ (rest : List Char) (fuel : Nat),
    2 * (renderMembers fs ++ rest).length + 1 ≤ fuel →
    parseMembers fuel (renderMembers fs ++ rest) = some (fs, rest)
  | [], hne, _ => absurd rfl hne
  | [(k, v)], _, hwf => by
    intro rest fuel hfuel
    have hw : wfStringChars k = true ∧ wfJSON v = true := by
      simpa [wfFields, Bool.and_eq_true] using hwf
    have hwk : ∀ c ∈ k.data, (c != dquote && c != bslash && decide (32 ≤ c.toNat)) = true := by
      have := hw.1
      simpa only [wfStringChars, List.all_eq_true] using this
    obtain ⟨g, rfl⟩ : ∃ g, fuel = g + 1 := ⟨fuel - 1, by omega⟩
    have hsh : renderMembers [(k, v)] ++ rest
        = dquote :: (k.data ++ (dquote :: (':' :: (renderChars v ++ (rbrace :: rest))))) := by
      simp [renderMembers, List.append_assoc]
    have hlen : (renderMembers [(k, v)] ++ rest).length
        = 1 + k.data.length + 1 + 1 + (renderChars v ++ (rbrace :: rest)).length := by
      rw [hsh]
      simp
      omega
    have hkey := parseStrChars_append hwk (':' :: (renderChars v ++ (rbrace :: rest)))
    have hv := parseVal_render v hw.2 (rbrace :: rest) g rfl (by omega)
    rw [hsh]
    simp only [parseMembers]
    rw [skipWs_cons dquote _ (by decide)]
    simp only [if_pos rfl, hkey]
    rw [skipWs_cons ':' _ (by decide)]
    simp only [hv]
    rw [skipWs_cons rbrace rest (by decide)]
    rfl
  | (k, v) :: q :: qs, _, hwf => by
    intro rest fuel hfuel
    have hw : wfStringChars k = true ∧ wfJSON v = true ∧ wfFields (q :: qs) = true := by
      simpa [wfFields, Bool.and_eq_true, and_assoc] using hwf
    have hwk : ∀ c ∈ k.data, (c != dquote && c != bslash && decide (32 ≤ c.toNat)) = true := by
      have := hw.1
      simpa only [wfStringChars, List.all_eq_true] using this
    obtain ⟨g, rfl⟩ : ∃ g, fuel = g + 1 := ⟨fuel - 1, by omega⟩
    have hsh : renderMembers ((k, v) :: q :: qs) ++ rest
        = dquote :: (k.data ++ (dquote :: (':' ::
            (renderChars v ++ (',' :: (renderMembers (q :: qs) ++ rest)))))) := by
      simp [renderMembers, List.append_assoc]
    have hlen : (renderMembers ((k, v) :: q :: qs) ++ rest).length
        = 1 + k.data.length + 1 + 1
          + (renderChars v ++ (',' :: (renderMembers (q :: qs) ++ rest))).length := by
      rw [hsh]
      simp
      omega
    have hkey := parseStrChars_append hwk
      (':' :: (renderChars v ++ (',' :: (renderMembers (q :: qs) ++ rest))))
    have hv := parseVal_render v hw.2.1
      (',' :: (renderMembers (q :: qs) ++ rest)) g rfl (by omega)
    have hrec := parseMembers_render (q :: qs) (by simp) hw.2.2 rest g (by
      have h2 : (renderChars v ++ (',' :: (renderMembers (q :: qs) ++ rest))).length
          = (renderChars v).length + 1 + (renderMembers (q :: qs) ++ rest).length := by
        simp
        omega
      omega)
    rw [hsh]
    simp only [parseMembers]
    rw [skipWs_cons dquote _ (by decide)]
    simp only [if_pos rfl, hkey]
    rw [skipWs_cons ':' _ (by decide)]
    simp only [hv]
    rw [skipWs_cons ',' _ (by decide)]
    show (match parseMembers g (renderMembers (q :: qs) ++ rest) with
      | some (fs, r) => some ((String.mk k.data, v) :: fs, r)
      | none => none) = some ((k, v) :: q :: qs, rest)
    rw [hrec]
  termination_by fs _ _ => sizeOf fs

end

/-- The round trip of the extractor model: the rendering of any well-formed
value parses back to the value, as under `JSON.parse`. -/
theorem jsonParse_render (v : JSValue) (h : wfJSON v = true) : jsonParse (render v) = some v := by
  have hr := parseVal_render v h [] (2 * (renderChars v).length + 2) rfl
    (by simp only [List.append_nil]; omega)
  rw [List.append_nil] at hr
  simp only [jsonParse, render, jsonParseChars]
  rw [hr]
  rfl

/-- The error taxonomy `AI_ERROR_TYPES` of the client module. -/
inductive ErrType where
  | INVALID_API_KEY
  | RATE_LIMITED
  | NETWORK_ERROR
  | INVALID_RESPONSE
  | SERVER_ERROR
  | TIMEOUT
  | UNKNOWN
deriving DecidableEq, Repr

/-- The `AIError` class: a message and a taxonomy tag. The `originalError`
payload is dropped; no claim inspects it. -/
structure AIError where
  msg : String
  type : ErrType
deriving DecidableEq, Repr

/-- Whitespace of the regex class used by the fenced-block pattern and by
`String.trim` (space, tab, line feed, carriage return, vertical tab, form
feed; astral unicode spaces are outside the modelled fragment). -/
def isRegexWs (c : Char) : Bool :=
  c = ' ' || c = '\t' || c = '\n' || c = '\r' || c.toNat = 11 || c.toNat = 12

/-- JavaScript `String.prototype.trim` on a character list. -/
def trimChars (cs : List Char) : List Char :=
  ((cs.dropWhile isRegexWs).reverse.dropWhile isRegexWs).reverse

/-- The three-backtick fence token. -/
def fenceOpen : List Char := [btick, btick, btick]

/-- Lazy scan for the closing fence: the shortest capture whose end is
followed by three backticks, with the unconsumed input after them. -/
def findFenceClose : List Char → Option (List Char × List Char)
  | [] => none
  | c :: cs =>
    if fenceOpen.isPrefixOf (c :: cs) then some ([], (c :: cs).drop 3)
    else
      match findFenceClose cs with
      | some (cap, r) => some (c :: cap, r)
      | none => none

/-- Model of the first match of the fenced-block pattern of `parseAIResponse`
(three backticks, an optional `json` tag, a greedy whitespace run, then a lazy
capture up to the next three backticks). When no closing fence follows an
opening one, the engine retries from the next start position, which the
recursive call models. -/
def fencedExtract : List Char → Option (List Char)
  | [] => none
  | c :: cs =>
    if fenceOpen.isPrefixOf (c :: cs) then
      let afterOpen := (c :: cs).drop 3
      let afterTag :=
        if ['j', 's', 'o', 'n'].isPrefixOf afterOpen then afterOpen.drop 4 else afterOpen
      match findFenceClose (afterTag.dropWhile isRegexWs) with
      | some (cap, _) => some cap
      | none => fencedExtract cs
    else fencedExtract cs

/-- Model of the widest-span object pattern of `parseAIResponse`: the span
from the first opening brace that has a later closing brace up to the last
closing brace of the input (the greedy leftmost regex match). -/
def braceSpan (cs : List Char) : Option (List Char) :=
  let s1 := cs.dropWhile fun c => !(c = lbrace)
  let s2 := (s1.reverse.dropWhile fun c => !(c = rbrace)).reverse
  if s2.isEmpty then none else some s2

/-- The error signalled when every extraction step fails. -/
def invalidRespErr : AIError :=
  ⟨"Could not parse AI response as JSON", ErrType.INVALID_RESPONSE⟩

/-- The third step of the extractor: parse the widest brace span, else signal
the invalid-response error. -/
def parseBraceStep (cs : List Char) : Except AIError JSValue :=
  match braceSpan cs with
  | some sp =>
    match jsonParseChars sp with
    | some v => Except.ok v
    | none => Except.error invalidRespErr
  | none => Except.error invalidRespErr

/-- Shallow embedding of `parseAIResponse` (src/unnamed/part_001, lines
156-188): direct parse, then fenced-block parse of the trimmed capture, then
widest-brace-span parse, in order with first success winning; the
INVALID_RESPONSE error is thrown when all three fail. -/
def parseAIResponse (content : String) : Except AIError JSValue :=
  match jsonParse content with
  | some v => Except.ok v
  | none =>
    match fencedExtract content.data with
    | some interior =>
      match jsonParseChars (trimChars interior) with
      | some v => Except.ok v
      | none => parseBraceStep content.data
    | none => parseBraceStep content.data

/-- Packing a character list into a string leaves its data unchanged. -/
theorem data_mk (l : List Char) : (String.mk l).data = l := rfl

/-- A JSON whitespace character is not a decimal digit. -/
theorem digitVal_of_ws (c : Char) (h : isJsonWs c = true) : digitVal c = none := by
  simp only [isJsonWs, Bool.or_eq_true, decide_eq_true_eq] at h
  rcases h with ((h | h) | h) | h <;> subst h <;> decide

/-- Skipping whitespace passes over an all-whitespace prefix of the input. -/
theorem skipWs_append_ws : ∀ (w l : List Char), (∀ c ∈ w, isJsonWs c = true) →
    skipWs (w ++ l) = skipWs l
  | [], _, _ => rfl
  | c :: t, l, h => by
    have hc := h c (List.mem_cons_self c t)
    show skipWs (c :: (t ++ l)) = skipWs l
    simp only [skipWs, List.dropWhile_cons, hc, if_true]
    exact skipWs_append_ws t l fun x hx => h x (List.mem_cons_of_mem c hx)

/-- An all-whitespace list is skipped entirely. -/
theorem skipWs_nil_of_ws (w : List Char) (h : ∀ c ∈ w, isJsonWs c = true) :
    skipWs w = [] := by
  have h2 := skipWs_append_ws w [] h
  simpa [skipWs] using h2

/-- The value parser observes its input only through `skipWs`. -/
theorem parseVal_skip_congr (f : Nat) (l1 l2 : List Char) (h : skipWs l1 = skipWs l2) :
    parseVal (f + 1) l1 = parseVal (f + 1) l2 := by
  rw [parseVal, parseVal, h]

/-- No JSON value begins with a backtick, whatever the fuel. -/
theorem parseVal_btick : ∀ (f : Nat) (r : List Char), parseVal f (btick :: r) = none
  | 0, _ => rfl
  | _ + 1, _ => rfl

/-- `JSON.parse` fails on any input that begins with a backtick. -/
theorem jsonParseChars_btick (r : List Char) : jsonParseChars (btick :: r) = none := by
  simp [jsonParseChars, parseVal_btick]

/-- The fence token is a prefix of any three backticks and a tail. -/
theorem fencePre (rest : List Char) :
    fenceOpen.isPrefixOf (btick :: btick :: btick :: rest) = true := by
  simp [fenceOpen, List.isPrefixOf]

/-- The json tag is a prefix of itself and a tail. -/
theorem jsonTagPre (rest : List Char) :
    (['j', 's', 'o', 'n'] : List Char).isPrefixOf ('j' :: 's' :: 'o' :: 'n' :: rest) = true := by
  simp [List.isPrefixOf]

/-- The fence token is not a prefix of input with a non-backtick head. -/
theorem nofencePre (c : Char) (rest : List Char) (h : (btick == c) = false) :
    fenceOpen.isPrefixOf (c :: rest) = false := by
  simp [fenceOpen, List.isPrefixOf, h]

/-- The lazy close-fence scan over a backtick-free capture stops exactly at
the closing fence. -/
theorem findFenceClose_free : ∀ (l r : List Char), btick ∉ l →
    findFenceClose (l ++ btick :: btick :: btick :: r) = some (l, r)
  | [], r, _ => by
    rw [List.nil_append, findFenceClose]
    simp only [fencePre, if_true, List.drop_succ_cons, List.drop_zero]
  | c :: t, r, h => by
    have hc : (btick == c) = false := by
      apply beq_eq_false_iff_ne.mpr
      intro hh
      exact h (hh ▸ List.mem_cons_self c t)
    show findFenceClose (c :: (t ++ btick :: btick :: btick :: r)) = some (c :: t, r)
    rw [findFenceClose]
    simp only [nofencePre c _ hc, Bool.false_eq_true, if_false,
      findFenceClose_free t r fun hx => h (List.mem_cons_of_mem c hx)]

/-- Rendered object members always end with the closing brace. -/
theorem renderMembers_last : ∀ (fs : List (String × JSValue)),
    ∃ t, renderMembers fs = t ++ [rbrace]
  | [] => ⟨[], by simp [renderMembers]⟩
  | [(k, v)] => ⟨dquote :: k.data ++ dquote :: ':' :: renderChars v, by simp [renderMembers]⟩
  | (k, v) :: m :: ms => by
    obtain ⟨t, ht⟩ := renderMembers_last (m :: ms)
    exact ⟨dquote :: k.data ++ dquote :: ':' :: renderChars v ++ ',' :: t, by
      simp [renderMembers, ht, List.append_assoc, List.cons_append]⟩

/-- Trimming a rendered object with a trailing newline yields exactly the
rendered object: its ends are an opening and a closing brace. -/
theorem trimChars_obj_pad (fs : List (String × JSValue)) :
    trimChars (renderChars (JSValue.obj fs) ++ ['\x0a']) = renderChars (JSValue.obj fs) := by
  have hobj : renderChars (JSValue.obj fs) = lbrace :: renderMembers fs := by
    simp [renderChars]
  obtain ⟨t, ht⟩ := renderMembers_last fs
  rw [hobj, ht]
  simp [trimChars, List.dropWhile_cons, List.reverse_append, List.reverse_cons,
    List.append_assoc, List.cons_append, List.nil_append,
    show isRegexWs lbrace = false by decide, show isRegexWs rbrace = false by decide,
    show isRegexWs '\x0a' = true by decide]

/-- The fenced-block pattern applied to a backtick-free rendered object
wrapped in a json-tagged fence captures the object (plus the final
newline, which trimming removes). -/
theorem fencedExtract_wrap (fs : List (String × JSValue))
    (hb : btick ∉ renderChars (JSValue.obj fs)) :
    fencedExtract (btick :: btick :: btick :: 'j' :: 's' :: 'o' :: 'n' :: '\x0a' ::
        (renderChars (JSValue.obj fs) ++ '\x0a' :: btick :: btick :: btick :: []))
      = some (renderChars (JSValue.obj fs) ++ ['\x0a']) := by
  have hobj : renderChars (JSValue.obj fs) = lbrace :: renderMembers fs := by
    simp [renderChars]
  have hfree : btick ∉ renderChars (JSValue.obj fs) ++ ['\x0a'] := by
    simp only [List.mem_append, List.mem_singleton]
    rintro (hx | hx)
    · exact hb hx
    · exact absurd hx (by decide)
  have hclose := findFenceClose_free (renderChars (JSValue.obj fs) ++ ['\x0a']) [] hfree
  rw [hobj] at hclose ⊢
  simp only [List.cons_append, List.append_assoc, List.singleton_append,
    List.append_nil, List.nil_append] at hclose ⊢
  rw [fencedExtract]
  simp only [fencePre, if_true, List.drop_succ_cons, List.drop_zero, jsonTagPre,
    List.dropWhile_cons, show isRegexWs '\x0a' = true by decide,
    show isRegexWs lbrace = false by decide, Bool.false_eq_true, if_false, hclose]

/-- `JSON.parse` tolerates whitespace around a rendered value, as the
grammar allows insignificant whitespace around the top-level value. -/
theorem jsonParseChars_padded (v : JSValue) (w1 w2 : List Char) (hv : wfJSON v = true)
    (h1 : ∀ c ∈ w1, isJsonWs c = true) (h2 : ∀ c ∈ w2, isJsonWs c = true) :
    jsonParseChars (w1 ++ renderChars v ++ w2) = some v := by
  have hskip : skipWs (w1 ++ renderChars v ++ w2) = skipWs (renderChars v ++ w2) := by
    rw [List.append_assoc]
    exact skipWs_append_ws w1 _ h1
  have hnd : noDigitHead w2 = true := by
    cases w2 with
    | nil => rfl
    | cons c t =>
      have hc := h2 c (List.mem_cons_self c t)
      simp [noDigitHead, digitVal_of_ws c hc]
  have hparse : parseVal (2 * (w1 ++ renderChars v ++ w2).length + 2)
      (w1 ++ renderChars v ++ w2) = some (v, w2) := by
    rw [show 2 * (w1 ++ renderChars v ++ w2).length + 2
        = (2 * (w1 ++ renderChars v ++ w2).length + 1) + 1 from rfl,
      parseVal_skip_congr _ _ (renderChars v ++ w2) hskip]
    exact parseVal_render v hv w2 _ hnd (by
      simp only [List.length_append]
      omega)
  simp only [jsonParseChars, hparse]
  rw [skipWs_nil_of_ws w2 h2]
  rfl

/-- C5 counterexample: a model output that contains a JSON object embedded in
prose (the rendered object is an infix of the string, and parses on its own),
yet the extractor signals the invalid-response error, because the span from
the first opening brace to the last closing brace is not valid JSON. This
refutes the claim that every prose-embedded object is recovered. -/
theorem parseAIResponse_missed_embedded :
    List.IsInfix ("\x7b\x22a\x22:1\x7d" : String).data
      ("He said \x7bhi\x7d and returned \x7b\x22a\x22:1\x7d" : String).data
    ∧ jsonParse "\x7b\x22a\x22:1\x7d" = some (JSValue.obj [("a", JSValue.num 1)])
    ∧ parseAIResponse "He said \x7bhi\x7d and returned \x7b\x22a\x22:1\x7d"
        = Except.error invalidRespErr :=
  ⟨by decide, rfl, rfl⟩

/-- C5 (amended): the extractor tries direct parse of the content as given,
fenced-block parse of the trimmed capture, then widest-brace-span parse, in
order with first success winning, and signals INVALID_RESPONSE exactly when
all three fail; a raw rendered well-formed value is always recovered, even
padded by JSON whitespace, and a backtick-free rendered object wrapped in a
json-tagged fenced block is always recovered, while a prose-embedded object
is recovered exactly when the brace-span extraction parses (not in
general, per the counterexample). -/
theorem parseAIResponse_chain :
    (∀ v, wfJSON v = true → parseAIResponse (render v) = Except.ok v)
    ∧ (∀ v w1 w2, wfJSON v = true →
        (∀ c ∈ w1, isJsonWs c = true) → (∀ c ∈ w2, isJsonWs c = true) →
        parseAIResponse (String.mk (w1 ++ renderChars v ++ w2)) = Except.ok v)
    ∧ (∀ s v, jsonParse s = some v → parseAIResponse s = Except.ok v)
    ∧ (∀ fs, wfJSON (JSValue.obj fs) = true →
        btick ∉ renderChars (JSValue.obj fs) →
        parseAIResponse (String.mk (btick :: btick :: btick :: 'j' :: 's' :: 'o' :: 'n' :: '\x0a' ::
            (renderChars (JSValue.obj fs) ++ '\x0a' :: btick :: btick :: btick :: [])))
          = Except.ok (JSValue.obj fs))
    ∧ (∀ s t v, jsonParse s = none → fencedExtract s.data = some t →
        jsonParseChars (trimChars t) = some v → parseAIResponse s = Except.ok v)
    ∧ (∀ s sp v, jsonParse s = none →
        (∀ t, fencedExtract s.data = some t → jsonParseChars (trimChars t) = none) →
        braceSpan s.data = some sp → jsonParseChars sp = some v →
        parseAIResponse s = Except.ok v)
    ∧ (∀ s, jsonParse s = none →
        (∀ t, fencedExtract s.data = some t → jsonParseChars (trimChars t) = none) →
        (∀ sp, braceSpan s.data = some sp → jsonParseChars sp = none) →
        parseAIResponse s = Except.error invalidRespErr) := by
  refine ⟨?_, ?_, ?_, ?_, ?_, ?_, ?_⟩
  · intro v hv
    have hd := jsonParse_render v hv
    simp [parseAIResponse, hd]
  · intro v w1 w2 hv h1 h2
    have hp : jsonParse (String.mk (w1 ++ (renderChars v ++ w2))) = some v := by
      rw [← List.append_assoc]
      exact jsonParseChars_padded v w1 w2 hv h1 h2
    simp [parseAIResponse, hp]
  · intro s v h
    simp [parseAIResponse, h]
  · intro fs hwf hb
    have h1 : jsonParse (String.mk (btick :: btick :: btick :: 'j' :: 's' :: 'o' :: 'n' :: '\x0a' ::
        (renderChars (JSValue.obj fs) ++ '\x0a' :: btick :: btick :: btick :: []))) = none :=
      jsonParseChars_btick _
    have h2 : fencedExtract (String.mk (btick :: btick :: btick :: 'j' :: 's' :: 'o' :: 'n' :: '\x0a' ::
        (renderChars (JSValue.obj fs) ++ '\x0a' :: btick :: btick :: btick :: []))).data
        = some (renderChars (JSValue.obj fs) ++ ['\x0a']) :=
      fencedExtract_wrap fs hb
    have h3 : jsonParseChars (trimChars (renderChars (JSValue.obj fs) ++ ['\x0a']))
        = some (JSValue.obj fs) := by
      rw [trimChars_obj_pad]
      exact jsonParse_render (JSValue.obj fs) hwf
    simp [parseAIResponse, h1, h2, h3]
  · intro s t v h1 h2 h3
    simp [parseAIResponse, h1, h2, h3]
  · intro s sp v h1 h2 h3 h4
    simp only [parseAIResponse, h1]
    cases hf : fencedExtract s.data with
    | none => simp [parseBraceStep, h3, h4]
    | some t => simp [h2 t hf, parseBraceStep, h3, h4]
  · intro s h1 h2 h3
    simp only [parseAIResponse, h1]
    cases hf : fencedExtract s.data with
    | none =>
      cases hb : braceSpan s.data with
      | none => simp [parseBraceStep, hb]
      | some sp => simp [parseBraceStep, hb, h3 sp hb]
    | some t =>
      cases hb : braceSpan s.data with
      | none => simp [h2 t hf, parseBraceStep, hb]
      | some sp => simp [h2 t hf, parseBraceStep, hb, h3 sp hb]

/-- Witness for C5: a concrete backtick-free object in a json-tagged fenced
block is recovered through the fenced-step guarantee. -/
theorem parseAIResponse_chain_witness :
    wfJSON (JSValue.obj [("a", JSValue.str "b")]) = true
    ∧ btick ∉ renderChars (JSValue.obj [("a", JSValue.str "b")])
    ∧ parseAIResponse (String.mk (btick :: btick :: btick :: 'j' :: 's' :: 'o' :: 'n' :: '\x0a' ::
        (renderChars (JSValue.obj [("a", JSValue.str "b")]) ++ '\x0a' :: btick :: btick :: btick :: [])))
      = Except.ok (JSValue.obj [("a", JSValue.str "b")]) := by
  have hwf : wfJSON (JSValue.obj [("a", JSValue.str "b")]) = true := by decide
  have hb : btick ∉ renderChars (JSValue.obj [("a", JSValue.str "b")]) := by
    simp only [renderChars, renderMembers]
    decide
  exact ⟨hwf, hb, parseAIResponse_chain.2.2.2.1 [("a", JSValue.str "b")] hwf hb⟩

/-- JavaScript `arr.slice(-50)` on a list: the at most 50 most recent
entries. -/
def sliceLast50 {α : Type} (l : List α) : List α := l.drop (l.length - 50)

/-- One scan-history record, `{id, timestamp, originalMessage, result, model}`
(useChat.js lines 127-133). -/
structure HistoryEntry where
  id : String
  timestamp : String
  originalMessage : String
  result : JSValue
  model : String

/-- The history update performed on success in `submitMessage` (useChat.js
lines 139-143): append the new entry, then keep the 50 most recent. -/
def appendHistory (prev : List HistoryEntry) (e : HistoryEntry) : List HistoryEntry :=
  sliceLast50 (prev ++ [e])

/-- C9: the scan history never exceeds 50 entries; appending keeps exactly the
most recent entries and drops from the oldest end, so appending to a
50-entry history drops only the oldest entry. -/
theorem appendHistory_cap (prev : List HistoryEntry) (e : HistoryEntry) :
    (appendHistory prev e).length ≤ 50
    ∧ appendHistory prev e = prev.drop (prev.length + 1 - 50) ++ [e]
    ∧ (prev.length < 50 → appendHistory prev e = prev ++ [e])
    ∧ (prev.length = 50 → appendHistory prev e = prev.drop 1 ++ [e]) := by
  refine ⟨?_, ?_, ?_, ?_⟩
  · simp only [appendHistory, sliceLast50, List.length_drop, List.length_append]
    omega
  · simp only [appendHistory, sliceLast50, List.length_append, List.drop_append_eq_append_drop]
    have h : prev.length + 1 - 50 - prev.length = 0 := by omega
    simp [h]
  · intro h
    have h0 : prev.length + 1 - 50 = 0 := by omega
    simp only [appendHistory, sliceLast50, List.length_append]
    simp [h0]
  · intro h
    simp only [appendHistory, sliceLast50, List.length_append, h,
      List.drop_append_eq_append_drop]
    norm_num

/-- A sample history record. -/
def sampleEntry : HistoryEntry := ⟨"id0", "t0", "msg", .null, "m"⟩

/-- A second sample history record, the 51st appended entry. -/
def newEntry : HistoryEntry := ⟨"id1", "t1", "msg1", .null, "m"⟩

/-- Witness for C9: appending a 51st entry to a full 50-entry history drops
exactly the oldest entry and stays at 50 entries. -/
theorem appendHistory_cap_witness :
    appendHistory (List.replicate 50 sampleEntry) newEntry
      = List.replicate 49 sampleEntry ++ [newEntry]
    ∧ (appendHistory (List.replicate 50 sampleEntry) newEntry).length ≤ 50 := by
  constructor
  · have h := (appendHistory_cap (List.replicate 50 sampleEntry) newEntry).2.2.2 (by simp)
    rw [h]
    simp [List.replicate_succ]
  · exact (appendHistory_cap (List.replicate 50 sampleEntry) newEntry).1

/-- Shape of the JSON body of an HTTP-success response, at the granularity
the code checks: whether `choices[0].message` exists, and if so its `content`
value, which may be absent (undefined) or a string. Non-string contents are
outside the modelled fragment. -/
inductive RespShape where
  | noMessage
  | message (content : Option String)
deriving DecidableEq, Repr

/-- Outcome of one `fetch` call as the code can observe it: a response with a
status and body shape, a rejection with an AbortError (the combined signal
was aborted, by cancellation or timeout), or a network failure rejecting with
a TypeError that mentions fetch. -/
inductive FetchOutcome where
  | resp (status : Nat) (shape : RespShape)
  | abortReject
  | netReject
deriving DecidableEq, Repr

/-- The values one attempt can throw, distinguished the way the catch block
distinguishes them: an AIError, an AbortError, a TypeError whose message
mentions fetch, or another TypeError (such as reading a property of
undefined). -/
inductive JsThrown where
  | aiErr (e : AIError)
  | abortErr
  | fetchTypeErr
  | otherTypeErr
deriving DecidableEq, Repr

/-- HTTP status classification of non-ok responses (src/unnamed/part_001,
lines 262-290); the UNKNOWN message carries the status as the template
literal does, with the response body text omitted from the model. -/
def classifyStatus (status : Nat) : AIError :=
  if status = 401 ∨ status = 403 then
    ⟨"Invalid API key. Please check your OpenRouter API key.", ErrType.INVALID_API_KEY⟩
  else if status = 429 then
    ⟨"Rate limited. Please wait a moment and try again.", ErrType.RATE_LIMITED⟩
  else if 500 ≤ status then
    ⟨"OpenRouter server error. Please try again.", ErrType.SERVER_ERROR⟩
  else ⟨"API error: " ++ String.mk (natChars status), ErrType.UNKNOWN⟩

/-- The HTTP-success test `response.ok` (status 200 to 299). -/
def respOk (status : Nat) : Bool := 200 ≤ status && status ≤ 299

/-- The structure error raised when `choices[0].message` is absent. -/
def structureErr : AIError := ⟨"Invalid response structure from API", ErrType.INVALID_RESPONSE⟩

/-- One iteration of the try block of `analyzeMessage` (lines 239-322):
classify a non-ok status; on success require `choices[0].message`, then run
the extractor and the validator on the content. When the message object
exists but its content is absent, `JSON.parse(undefined)` throws a caught
SyntaxError and `content.match` then throws an uncaught TypeError whose
message does not mention fetch. The `_meta` wrapper attached on success is
not modelled; no claim inspects it. -/
def attemptOnce (f : FetchOutcome) : Except JsThrown JSValue :=
  match f with
  | .abortReject => Except.error JsThrown.abortErr
  | .netReject => Except.error JsThrown.fetchTypeErr
  | .resp status shape =>
    if !respOk status then Except.error (JsThrown.aiErr (classifyStatus status))
    else
      match shape with
      | .noMessage => Except.error (JsThrown.aiErr structureErr)
      | .message none => Except.error JsThrown.otherTypeErr
      | .message (some content) =>
        match parseAIResponse content with
        | Except.error e => Except.error (JsThrown.aiErr e)
        | Except.ok parsed =>
          match validateAnalysisResponse parsed with
          | some verr =>
            Except.error (JsThrown.aiErr
              ⟨"Invalid analysis response: " ++ verr, ErrType.INVALID_RESPONSE⟩)
          | none => Except.ok parsed

/-- Environment of one run: the network outcome of each attempt while the
external signal has not fired, and optionally the attempt number whose
backoff sleep the external cancellation signal fires during. -/
structure Env where
  fetchResult : Nat → FetchOutcome
  signalAbortAfter : Option Nat

/-- The fetch outcome observed at an attempt: once the external signal has
fired (during the backoff sleep after attempt k), every later fetch rejects
immediately with an AbortError, because `anySignal` sees the already-aborted
signal when the request is created. -/
def effFetch (env : Env) (n : Nat) : FetchOutcome :=
  match env.signalAbortAfter with
  | some k => if k < n then FetchOutcome.abortReject else env.fetchResult n
  | none => env.fetchResult n

/-- Trace of a run: how many attempts were made and which backoff delays were
slept between them. The `sleep` of the module (line 119) is a bare
`setTimeout` promise that observes no signal, so every started backoff delay
is slept in full; a delay is recorded exactly when a retry follows. -/
structure RunTrace where
  attempts : Nat
  delays : List Nat
deriving DecidableEq, Repr

/-- Outcome of a whole `analyzeMessage` run together with its trace. -/
inductive RunOutcome where
  | ok (v : JSValue) (t : RunTrace)
  | err (e : JsThrown) (t : RunTrace)

/-- The trace component of a run outcome. -/
def RunOutcome.trace : RunOutcome → RunTrace
  | .ok _ t => t
  | .err _ t => t

/-- The backoff delay after a failed attempt (line 353). -/
def backoffDelay (attempt : Nat) : Nat := min (1000 * 2 ^ (attempt - 1)) 10000

/-- The non-retryable check of the catch block (lines 328-335). -/
def isFatalThrow : JsThrown → Bool
  | .aiErr e => e.type = ErrType.INVALID_API_KEY || e.type = ErrType.INVALID_RESPONSE
  | _ => false

/-- Errors the loop retries: not a fatal AIError and not an AbortError. -/
def isRetryableThrow : JsThrown → Bool
  | .aiErr e => !(e.type = ErrType.INVALID_API_KEY || e.type = ErrType.INVALID_RESPONSE)
  | .abortErr => false
  | .fetchTypeErr => true
  | .otherTypeErr => true

/-- The error-kind a failed attempt carries in the spec taxonomy: the type of
an AIError, NETWORK_ERROR for a fetch TypeError (which the catch block
converts before retrying), nothing for the remaining throwables. -/
def failureKind : JsThrown → Option ErrType
  | .aiErr e => some e.type
  | .fetchTypeErr => some ErrType.NETWORK_ERROR
  | _ => none

/-- The conversion of `lastError` before the next iteration (lines 343-349):
a fetch TypeError becomes the NETWORK_ERROR AIError; everything else is kept
as thrown. -/
def normThrown : JsThrown → JsThrown
  | .fetchTypeErr =>
    JsThrown.aiErr ⟨"Network error. Check your internet connection.", ErrType.NETWORK_ERROR⟩
  | e => e

/-- The AIError thrown when an attempt rejects with an AbortError (lines
338-340). -/
def cancelledErr : AIError := ⟨"Request cancelled", ErrType.TIMEOUT⟩

/-- The retry loop of `analyzeMessage` (lines 226-361), indexed by remaining
iterations: run one attempt; return its value on success; rethrow at once on
a non-retryable AIError; wrap an AbortError as the TIMEOUT AIError and
rethrow; otherwise sleep the backoff delay and retry while iterations remain,
and after the last iteration throw the last converted error (or the fallback
UNKNOWN error when no iteration ran). -/
def loopFrom (env : Env) : Nat → Nat → List Nat → Option JsThrown → RunOutcome
  | 0, attempt, delaysRev, lastErr =>
    RunOutcome.err
      (lastErr.getD (JsThrown.aiErr ⟨"Request failed after retries", ErrType.UNKNOWN⟩))
      ⟨attempt - 1, delaysRev.reverse⟩
  | remaining + 1, attempt, delaysRev, _ =>
    match attemptOnce (effFetch env attempt) with
    | Except.ok v => RunOutcome.ok v ⟨attempt, delaysRev.reverse⟩
    | Except.error e =>
      if isFatalThrow e then RunOutcome.err e ⟨attempt, delaysRev.reverse⟩
      else
        match e with
        | JsThrown.abortErr =>
          RunOutcome.err (JsThrown.aiErr cancelledErr) ⟨attempt, delaysRev.reverse⟩
        | _ =>
          match remaining with
          | 0 => RunOutcome.err (normThrown e) ⟨attempt, delaysRev.reverse⟩
          | rem + 1 =>
            loopFrom env (rem + 1) (attempt + 1) (backoffDelay attempt :: delaysRev)
              (some (normThrown e))

/-- The message and apiKey arguments as the input validation distinguishes
them: a string, or undefined, null, or a truthy value of another type. -/
inductive JsInput where
  | str (s : String)
  | undef
  | jsNull
  | nonString
deriving DecidableEq, Repr

/-- The blank-input test of lines 211 and 215: falsy, not a string, or
whitespace-only after trim. -/
def isBlankInput : JsInput → Bool
  | .str s => (trimChars s.data).isEmpty
  | _ => true

/-- The local error thrown for a blank message (line 212). -/
def msgRequiredErr : AIError := ⟨"Message is required", ErrType.INVALID_RESPONSE⟩

/-- The local error thrown for a blank API key (line 216). -/
def keyRequiredErr : AIError := ⟨"API key is required", ErrType.INVALID_API_KEY⟩

/-- Shallow embedding of `analyzeMessage` (lines 202-362): the two local
validations in source order, then the retry loop starting at attempt 1 with
`maxRetries` iterations available. The truncation of overlong messages (line
221) shapes only the outgoing payload and is not observable here. -/
def analyzeMessage (message apiKey : JsInput) (env : Env) (maxRetries : Nat) : RunOutcome :=
  if isBlankInput message then RunOutcome.err (JsThrown.aiErr msgRequiredErr) ⟨0, []⟩
  else if isBlankInput apiKey then RunOutcome.err (JsThrown.aiErr keyRequiredErr) ⟨0, []⟩
  else loopFrom env maxRetries 1 [] none

/-- A retryable error is neither fatal nor an abort. -/
theorem retryable_facts {e : JsThrown} (h : isRetryableThrow e = true) :
    isFatalThrow e = false ∧ e ≠ JsThrown.abortErr := by
  cases e <;> simp_all [isRetryableThrow, isFatalThrow]

/-- A failure whose kind is one of the four retryable kinds is retryable. -/
theorem retryable_of_kind {e : JsThrown} {k : ErrType} (h : failureKind e = some k)
    (hk : k = ErrType.RATE_LIMITED ∨ k = ErrType.NETWORK_ERROR
      ∨ k = ErrType.SERVER_ERROR ∨ k = ErrType.UNKNOWN) :
    isRetryableThrow e = true := by
  cases e with
  | aiErr a =>
    simp only [failureKind, Option.some.injEq] at h
    subst h
    rcases hk with h' | h' | h' | h' <;> simp [isRetryableThrow, h']
  | abortErr => simp [failureKind] at h
  | fetchTypeErr => simp [isRetryableThrow]
  | otherTypeErr => simp [failureKind] at h

/-- One unfolding of the loop at a positive iteration count. -/
theorem loopFrom_succ (env : Env) (rem attempt : Nat) (dl : List Nat)
    (last : Option JsThrown) :
    loopFrom env (rem + 1) attempt dl last
      = match attemptOnce (effFetch env attempt) with
        | Except.ok v => RunOutcome.ok v ⟨attempt, dl.reverse⟩
        | Except.error e =>
          if isFatalThrow e then RunOutcome.err e ⟨attempt, dl.reverse⟩
          else
            match e with
            | JsThrown.abortErr =>
              RunOutcome.err (JsThrown.aiErr cancelledErr) ⟨attempt, dl.reverse⟩
            | _ =>
              match rem with
              | 0 => RunOutcome.err (normThrown e) ⟨attempt, dl.reverse⟩
              | rem' + 1 =>
                loopFrom env (rem' + 1) (attempt + 1) (backoffDelay attempt :: dl)
                  (some (normThrown e)) := by
  rw [loopFrom]

/-- A successful attempt ends the loop at the current attempt count. -/
theorem loopFrom_ok {env : Env} {attempt : Nat} {v : JSValue}
    (h : attemptOnce (effFetch env attempt) = Except.ok v) (rem : Nat)
    (dl : List Nat) (last : Option JsThrown) :
    loopFrom env (rem + 1) attempt dl last = RunOutcome.ok v ⟨attempt, dl.reverse⟩ := by
  rw [loopFrom_succ, h]

/-- A fatal AIError ends the loop at once, propagated unchanged. -/
theorem loopFrom_fatal {env : Env} {attempt : Nat} {e : JsThrown}
    (h1 : attemptOnce (effFetch env attempt) = Except.error e)
    (h2 : isFatalThrow e = true) (rem : Nat) (dl : List Nat) (last : Option JsThrown) :
    loopFrom env (rem + 1) attempt dl last = RunOutcome.err e ⟨attempt, dl.reverse⟩ := by
  rw [loopFrom_succ, h1]
  simp [h2]

/-- An aborted attempt ends the loop at once with the TIMEOUT cancellation
error. -/
theorem loopFrom_abort {env : Env} {attempt : Nat}
    (h1 : attemptOnce (effFetch env attempt) = Except.error JsThrown.abortErr)
    (rem : Nat) (dl : List Nat) (last : Option JsThrown) :
    loopFrom env (rem + 1) attempt dl last
      = RunOutcome.err (JsThrown.aiErr cancelledErr) ⟨attempt, dl.reverse⟩ := by
  rw [loopFrom_succ, h1]
  rfl

/-- A retryable failure on the last remaining iteration ends the loop with
the converted error. -/
theorem loopFrom_last {env : Env} {attempt : Nat} {e : JsThrown}
    (h1 : attemptOnce (effFetch env attempt) = Except.error e)
    (h2 : isRetryableThrow e = true) (dl : List Nat) (last : Option JsThrown) :
    loopFrom env 1 attempt dl last = RunOutcome.err (normThrown e) ⟨attempt, dl.reverse⟩ := by
  obtain ⟨hf, hne⟩ := retryable_facts h2
  rw [loopFrom_succ env 0 attempt dl last, h1]
  cases e with
  | aiErr a => simp [hf]
  | abortErr => exact absurd rfl hne
  | fetchTypeErr => rfl
  | otherTypeErr => rfl

/-- A retryable failure with iterations remaining records the backoff delay
and retries. -/
theorem loopFrom_retry {env : Env} {attempt : Nat} {e : JsThrown}
    (h1 : attemptOnce (effFetch env attempt) = Except.error e)
    (h2 : isRetryableThrow e = true) (rem : Nat) (dl : List Nat) (last : Option JsThrown) :
    loopFrom env (rem + 2) attempt dl last
      = loopFrom env (rem + 1) (attempt + 1) (backoffDelay attempt :: dl)
          (some (normThrown e)) := by
  obtain ⟨hf, hne⟩ := retryable_facts h2
  rw [loopFrom_succ env (rem + 1) attempt dl last, h1]
  cases e with
  | aiErr a => simp [hf]
  | abortErr => exact absurd rfl hne
  | fetchTypeErr => rfl
  | otherTypeErr => rfl

/-- The backoff delays recorded for a block of failed attempts starting at a
given attempt number. -/
def delaysFrom (attempt k : Nat) : List Nat :=
  (List.range k).map fun i => backoffDelay (attempt + i)

/-- Unfolding of the delay block at the front. -/
theorem delaysFrom_succ (attempt k : Nat) :
    delaysFrom attempt (k + 1) = backoffDelay attempt :: delaysFrom (attempt + 1) k := by
  simp only [delaysFrom, List.range_succ_eq_map, List.map_cons, List.map_map, Nat.add_zero]
  congr 1
  apply List.map_congr_left
  intro i _
  simp only [Function.comp_apply]
  congr 1
  omega

/-- Skipping a block of retryable failures advances the loop, recording each
backoff delay in order and keeping the last converted error. -/
theorem loopFrom_skip (env : Env) (errs : Nat → JsThrown) :
    ∀ (k rem attempt : Nat) (dl : List Nat) (last : Option JsThrown),
    (∀ i, i < k → attemptOnce (effFetch env (attempt + i)) = Except.error (errs (attempt + i))
        ∧ isRetryableThrow (errs (attempt + i)) = true) →
    loopFrom env (rem + k + 1) attempt dl last
      = loopFrom env (rem + 1) (attempt + k) ((delaysFrom attempt k).reverse ++ dl)
          (if k = 0 then last else some (normThrown (errs (attempt + k - 1)))) := by
  intro k
  induction k with
  | zero =>
    intro rem attempt dl last _
    simp [delaysFrom]
  | succ k ih =>
    intro rem attempt dl last h
    have h0 := h 0 (by omega)
    rw [Nat.add_zero] at h0
    have hstep := loopFrom_retry h0.1 h0.2 (rem + k) dl last
    have harith : rem + (k + 1) + 1 = rem + k + 2 := by omega
    rw [harith, hstep]
    have hh : ∀ i, i < k →
        attemptOnce (effFetch env (attempt + 1 + i)) = Except.error (errs (attempt + 1 + i))
        ∧ isRetryableThrow (errs (attempt + 1 + i)) = true := by
      intro i hi
      have hx := h (i + 1) (by omega)
      rwa [show attempt + (i + 1) = attempt + 1 + i by omega] at hx
    rw [ih rem (attempt + 1) (backoffDelay attempt :: dl) (some (normThrown (errs attempt))) hh]
    have ha : attempt + 1 + k = attempt + (k + 1) := by omega
    have hd : (delaysFrom (attempt + 1) k).reverse ++ (backoffDelay attempt :: dl)
        = (delaysFrom attempt (k + 1)).reverse ++ dl := by
      rw [delaysFrom_succ, List.reverse_cons]
      simp [List.append_assoc]
    have hlast : (if k = 0 then some (normThrown (errs attempt))
          else some (normThrown (errs (attempt + 1 + k - 1))))
        = (if k + 1 = 0 then last else some (normThrown (errs (attempt + (k + 1) - 1)))) := by
      cases k with
      | zero => norm_num
      | succ j =>
        rw [if_neg (by omega), if_neg (by omega),
          show attempt + 1 + (j + 1) - 1 = attempt + (j + 1 + 1) - 1 from by omega]
    rw [hlast, hd, ha]

/-- Whenever at least one iteration remains, the loop reports at least the
current attempt number in its trace. -/
theorem loopFrom_attempts_ge (env : Env) :
    ∀ (rem attempt : Nat) (dl : List Nat) (last : Option JsThrown), 1 ≤ rem →
    attempt ≤ (loopFrom env rem attempt dl last).trace.attempts := by
  intro rem
  induction rem with
  | zero => omega
  | succ rem ih =>
    intro attempt dl last _
    rw [loopFrom_succ]
    cases hA : attemptOnce (effFetch env attempt) with
    | ok v => simp [RunOutcome.trace]
    | error e =>
      by_cases hf : isFatalThrow e = true
      · simp [hf, RunOutcome.trace]
      · simp only [hf, Bool.false_eq_true, if_false]
        cases e with
        | abortErr => simp [RunOutcome.trace]
        | aiErr a =>
          cases rem with
          | zero => simp [RunOutcome.trace]
          | succ rem' =>
            have hih := ih (attempt + 1) (backoffDelay attempt :: dl)
              (some (normThrown (JsThrown.aiErr a))) (by omega)
            show attempt ≤ (loopFrom env (rem' + 1) (attempt + 1)
              (backoffDelay attempt :: dl) (some (normThrown (JsThrown.aiErr a)))).trace.attempts
            omega
        | fetchTypeErr =>
          cases rem with
          | zero => simp [RunOutcome.trace]
          | succ rem' =>
            have hih := ih (attempt + 1) (backoffDelay attempt :: dl)
              (some (normThrown JsThrown.fetchTypeErr)) (by omega)
            show attempt ≤ (loopFrom env (rem' + 1) (attempt + 1)
              (backoffDelay attempt :: dl) (some (normThrown JsThrown.fetchTypeErr))).trace.attempts
            omega
        | otherTypeErr =>
          cases rem with
          | zero => simp [RunOutcome.trace]
          | succ rem' =>
            have hih := ih (attempt + 1) (backoffDelay attempt :: dl)
              (some (normThrown JsThrown.otherTypeErr)) (by omega)
            show attempt ≤ (loopFrom env (rem' + 1) (attempt + 1)
              (backoffDelay attempt :: dl) (some (normThrown JsThrown.otherTypeErr))).trace.attempts
            omega

/-- With non-blank inputs, `analyzeMessage` is its retry loop. -/
theorem analyzeMessage_eq_loop {message apiKey : JsInput} (hm : isBlankInput message = false)
    (hk : isBlankInput apiKey = false) (env : Env) (n : Nat) :
    analyzeMessage message apiKey env n = loopFrom env n 1 [] none := by
  simp [analyzeMessage, hm, hk]

/-- After a prefix of retryable failures, the loop stands at the first
un-examined attempt with the prefix delays recorded. -/
theorem loop_after_prefix (env : Env) (errs : Nat → JsThrown) (n k : Nat)
    (h1 : 1 ≤ k) (h2 : k ≤ n)
    (hpre : ∀ i, 1 ≤ i → i < k → attemptOnce (effFetch env i) = Except.error (errs i)
        ∧ isRetryableThrow (errs i) = true) :
    loopFrom env n 1 [] none
      = loopFrom env (n - k + 1) k ((delaysFrom 1 (k - 1)).reverse)
          (if k - 1 = 0 then none else some (normThrown (errs (k - 1)))) := by
  have hsplit : n = n - k + (k - 1) + 1 := by omega
  conv_lhs => rw [hsplit]
  have hskip := loopFrom_skip env errs (k - 1) (n - k) 1 [] none (by
    intro i hi
    exact hpre (1 + i) (by omega) (by omega))
  rw [hskip, List.append_nil, show 1 + (k - 1) = k from by omega]

/-- The mocked always-500 provider. -/
def env500 : Env := ⟨fun _ => FetchOutcome.resp 500 RespShape.noMessage, none⟩

/-- The mocked always-401 provider. -/
def env401 : Env := ⟨fun _ => FetchOutcome.resp 401 RespShape.noMessage, none⟩

/-- The server-error AIError of the status classifier. -/
def serverErr : AIError := ⟨"OpenRouter server error. Please try again.", ErrType.SERVER_ERROR⟩

/-- The invalid-key AIError of the status classifier. -/
def invalidKeyErr : AIError :=
  ⟨"Invalid API key. Please check your OpenRouter API key.", ErrType.INVALID_API_KEY⟩

/-- The rate-limited AIError of the status classifier. -/
def rateLimitedErr : AIError :=
  ⟨"Rate limited. Please wait a moment and try again.", ErrType.RATE_LIMITED⟩

/-- C3: when every attempt up to `maxRetries` fails with a retryable kind
(RateLimited, NetworkError, ServerError or Unknown), the loop makes exactly
`maxRetries` attempts, sleeps the backoff delays between them, and fails with
the last observed (converted) error; in particular an always-500 provider
with three retries exhausts three attempts and fails with the server error. -/
theorem analyzeMessage_retryable_exhaust :
    (∀ (message apiKey : JsInput) (env : Env) (n : Nat) (errs : Nat → JsThrown),
      isBlankInput message = false → isBlankInput apiKey = false → 1 ≤ n →
      (∀ i, 1 ≤ i → i ≤ n → attemptOnce (effFetch env i) = Except.error (errs i)) →
      (∀ i, 1 ≤ i → i ≤ n → ∃ kk, failureKind (errs i) = some kk
        ∧ (kk = ErrType.RATE_LIMITED ∨ kk = ErrType.NETWORK_ERROR
          ∨ kk = ErrType.SERVER_ERROR ∨ kk = ErrType.UNKNOWN)) →
      analyzeMessage message apiKey env n
        = RunOutcome.err (normThrown (errs n)) ⟨n, delaysFrom 1 (n - 1)⟩)
    ∧ analyzeMessage (JsInput.str "hello") (JsInput.str "sk-or-key") env500 3
        = RunOutcome.err (JsThrown.aiErr serverErr) ⟨3, [1000, 2000]⟩ := by
  constructor
  · intro message apiKey env n errs hm hk hn herrs hkind
    have hret : ∀ i, 1 ≤ i → i ≤ n → isRetryableThrow (errs i) = true := by
      intro i hi1 hi2
      obtain ⟨kk, hfk, hkd⟩ := hkind i hi1 hi2
      exact retryable_of_kind hfk hkd
    rw [analyzeMessage_eq_loop hm hk,
      loop_after_prefix env errs n n (by omega) (le_refl n)
        (fun i hi1 hi2 => ⟨herrs i hi1 (by omega), hret i hi1 (by omega)⟩),
      show n - n + 1 = 1 from by omega,
      loopFrom_last (herrs n (by omega) (le_refl n)) (hret n (by omega) (le_refl n)),
      List.reverse_reverse]
  · rfl

/-- Witness for C3: the always-500 provider with three retries, through the
general statement. -/
theorem analyzeMessage_retryable_exhaust_witness :
    analyzeMessage (JsInput.str "hello") (JsInput.str "sk-or-key") env500 3
      = RunOutcome.err (normThrown (JsThrown.aiErr serverErr)) ⟨3, delaysFrom 1 2⟩ :=
  analyzeMessage_retryable_exhaust.1 (JsInput.str "hello") (JsInput.str "sk-or-key")
    env500 3 (fun _ => JsThrown.aiErr serverErr) rfl rfl (by omega)
    (fun _ _ _ => rfl)
    (fun _ _ _ => ⟨ErrType.SERVER_ERROR, rfl, Or.inr (Or.inr (Or.inl rfl))⟩)

/-- C2: an attempt failing with an InvalidApiKey- or InvalidResponse-kind
AIError stops the loop at once and propagates that error unchanged, no matter
how many retries remain; with an always-401 provider exactly one attempt is
made. -/
theorem analyzeMessage_nonretryable_stops :
    (∀ (message apiKey : JsInput) (env : Env) (n k : Nat) (errs : Nat → JsThrown) (e : AIError),
      isBlankInput message = false → isBlankInput apiKey = false →
      1 ≤ k → k ≤ n →
      (∀ i, 1 ≤ i → i < k → attemptOnce (effFetch env i) = Except.error (errs i)
        ∧ isRetryableThrow (errs i) = true) →
      attemptOnce (effFetch env k) = Except.error (JsThrown.aiErr e) →
      (e.type = ErrType.INVALID_API_KEY ∨ e.type = ErrType.INVALID_RESPONSE) →
      analyzeMessage message apiKey env n
        = RunOutcome.err (JsThrown.aiErr e) ⟨k, delaysFrom 1 (k - 1)⟩)
    ∧ (∀ n, 1 ≤ n →
      analyzeMessage (JsInput.str "hello") (JsInput.str "sk-or-key") env401 n
        = RunOutcome.err (JsThrown.aiErr invalidKeyErr) ⟨1, []⟩) := by
  constructor
  · intro message apiKey env n k errs e hm hk hk1 hkn hpre hfail htype
    have hfatal : isFatalThrow (JsThrown.aiErr e) = true := by
      rcases htype with h | h <;> simp [isFatalThrow, h]
    rw [analyzeMessage_eq_loop hm hk, loop_after_prefix env errs n k hk1 hkn hpre,
      loopFrom_fatal hfail hfatal, List.reverse_reverse]
  · intro n hn
    rw [@analyzeMessage_eq_loop (JsInput.str "hello") (JsInput.str "sk-or-key") rfl rfl env401 n]
    conv_lhs => rw [show n = n - 1 + 1 from by omega]
    rw [@loopFrom_fatal env401 1 (JsThrown.aiErr invalidKeyErr) rfl rfl (n - 1) [] none]
    rfl

/-- Witness for C2: the always-401 provider with the default three retries
makes exactly one attempt. -/
theorem analyzeMessage_nonretryable_stops_witness :
    analyzeMessage (JsInput.str "hello") (JsInput.str "sk-or-key") env401 3
      = RunOutcome.err (JsThrown.aiErr invalidKeyErr) ⟨1, []⟩ :=
  analyzeMessage_nonretryable_stops.2 3 (by omega)

/-- A conforming analysis reply as raw JSON text. -/
def goodContent : String :=
  "\x7b\x22verdict\x22:\x22good_to_send\x22,\x22verdictReason\x22:\x22clear\x22,\x22risks\x22:[],\x22missing\x22:[],\x22rewrites\x22:\x7b\x22short\x22:\x22a\x22,\x22warm\x22:\x22b\x22,\x22confident\x22:\x22c\x22\x7d,\x22suggestedOpener\x22:\x22d\x22\x7d"

/-- The mocked provider failing 429 twice and then answering 200 with a
conforming analysis body. -/
def env429 : Env :=
  ⟨fun i => if i ≤ 2 then FetchOutcome.resp 429 RespShape.noMessage
    else FetchOutcome.resp 200 (RespShape.message (some goodContent)), none⟩

set_option maxRecDepth 40000 in
/-- C4: the backoff delay before the retry that follows failed attempt `i` is
exactly `min (1000 * 2 ^ (i - 1)) 10000` milliseconds (1s, 2s, 4s, 8s, capped
at 10s); a run that succeeds at attempt `k` after retryable failures records
exactly the delays of attempts 1 to `k - 1`; and the 429-429-200 provider
with three retries succeeds on the third attempt having waited 1000 ms then
2000 ms. -/
theorem analyzeMessage_backoff :
    (∀ i, backoffDelay i = min (1000 * 2 ^ (i - 1)) 10000)
    ∧ [backoffDelay 1, backoffDelay 2, backoffDelay 3, backoffDelay 4, backoffDelay 5,
        backoffDelay 6] = [1000, 2000, 4000, 8000, 10000, 10000]
    ∧ (∀ (message apiKey : JsInput) (env : Env) (n k : Nat) (errs : Nat → JsThrown) (v : JSValue),
      isBlankInput message = false → isBlankInput apiKey = false →
      1 ≤ k → k ≤ n →
      (∀ i, 1 ≤ i → i < k → attemptOnce (effFetch env i) = Except.error (errs i)
        ∧ isRetryableThrow (errs i) = true) →
      attemptOnce (effFetch env k) = Except.ok v →
      analyzeMessage message apiKey env n = RunOutcome.ok v ⟨k, delaysFrom 1 (k - 1)⟩)
    ∧ analyzeMessage (JsInput.str "hello") (JsInput.str "sk-or-key") env429 3
        = RunOutcome.ok goodCandidate ⟨3, [1000, 2000]⟩ := by
  refine ⟨fun i => rfl, rfl, ?_, rfl⟩
  intro message apiKey env n k errs v hm hk hk1 hkn hpre hok
  rw [analyzeMessage_eq_loop hm hk, loop_after_prefix env errs n k hk1 hkn hpre,
    loopFrom_ok hok, List.reverse_reverse]

set_option maxRecDepth 40000 in
/-- Witness for C4: the 429-429-200 provider through the general statement. -/
theorem analyzeMessage_backoff_witness :
    analyzeMessage (JsInput.str "hello") (JsInput.str "sk-or-key") env429 3
      = RunOutcome.ok goodCandidate ⟨3, delaysFrom 1 2⟩ := by
  apply analyzeMessage_backoff.2.2.1 (JsInput.str "hello") (JsInput.str "sk-or-key") env429 3 3
    (fun _ => JsThrown.aiErr rateLimitedErr) goodCandidate rfl rfl (by omega) (by omega)
  · intro i hi1 hi2
    have heff : effFetch env429 i = FetchOutcome.resp 429 RespShape.noMessage := by
      simp only [effFetch, env429]
      rw [if_pos (by omega)]
    rw [heff]
    exact ⟨rfl, rfl⟩
  · rfl

/-- The mocked 2xx provider whose body has `choices[0].message` but no
`content`. -/
def envNoContent : Env := ⟨fun _ => FetchOutcome.resp 200 (RespShape.message none), none⟩

/-- C6 counterexample: on a 2xx response whose `choices[0].message` exists
but carries no `content`, the attempt throws a plain TypeError (not an
InvalidResponse AIError) and the loop retries it: with two retries the run
makes two attempts, sleeps one backoff, and ends with the raw TypeError.
This refutes the claim that any absent content yields a non-retryable
InvalidResponse failure. -/
theorem analyzeMessage_missing_content_retried :
    analyzeMessage (JsInput.str "hello") (JsInput.str "sk-or-key") envNoContent 2
      = RunOutcome.err JsThrown.otherTypeErr ⟨2, [1000]⟩ := rfl

/-- The mocked 2xx provider whose body lacks `choices[0].message`. -/
def envNoMessage : Env := ⟨fun _ => FetchOutcome.resp 200 RespShape.noMessage, none⟩

/-- C6 (amended): on a 2xx response, absence of `choices[0].message` (missing
choices, empty choices, or missing message) raises the non-retryable
InvalidResponse structure error and the loop stops at that attempt; when the
message exists but its content is absent, the extractor step instead throws a
plain TypeError, which the loop treats as retryable. -/
theorem analyzeMessage_success_shape :
    (∀ status, respOk status = true →
      attemptOnce (FetchOutcome.resp status RespShape.noMessage)
        = Except.error (JsThrown.aiErr structureErr)
      ∧ isFatalThrow (JsThrown.aiErr structureErr) = true)
    ∧ (∀ (message apiKey : JsInput) (env : Env) (n k status : Nat) (errs : Nat → JsThrown),
      isBlankInput message = false → isBlankInput apiKey = false →
      1 ≤ k → k ≤ n →
      (∀ i, 1 ≤ i → i < k → attemptOnce (effFetch env i) = Except.error (errs i)
        ∧ isRetryableThrow (errs i) = true) →
      effFetch env k = FetchOutcome.resp status RespShape.noMessage →
      respOk status = true →
      analyzeMessage message apiKey env n
        = RunOutcome.err (JsThrown.aiErr structureErr) ⟨k, delaysFrom 1 (k - 1)⟩)
    ∧ (∀ status, respOk status = true →
      attemptOnce (FetchOutcome.resp status (RespShape.message none))
        = Except.error JsThrown.otherTypeErr
      ∧ isRetryableThrow JsThrown.otherTypeErr = true) := by
  refine ⟨?_, ?_, ?_⟩
  · intro status h
    exact ⟨by simp [attemptOnce, h], rfl⟩
  · intro message apiKey env n k status errs hm hk hk1 hkn hpre heff hstatus
    have hfail : attemptOnce (effFetch env k) = Except.error (JsThrown.aiErr structureErr) := by
      rw [heff]
      simp [attemptOnce, hstatus]
    rw [analyzeMessage_eq_loop hm hk, loop_after_prefix env errs n k hk1 hkn hpre,
      loopFrom_fatal hfail rfl, List.reverse_reverse]
  · intro status h
    exact ⟨by simp [attemptOnce, h], rfl⟩

/-- Witness for C6: a 2xx body lacking `choices[0].message` stops the loop at
the first attempt with the structure error. -/
theorem analyzeMessage_success_shape_witness :
    analyzeMessage (JsInput.str "hello") (JsInput.str "sk-or-key") envNoMessage 3
      = RunOutcome.err (JsThrown.aiErr structureErr) ⟨1, delaysFrom 1 0⟩ :=
  analyzeMessage_success_shape.2.1 (JsInput.str "hello") (JsInput.str "sk-or-key")
    envNoMessage 3 1 200 (fun _ => JsThrown.otherTypeErr) rfl rfl (by omega) (by omega)
    (fun i hi1 hi2 => absurd (Nat.lt_of_le_of_lt hi1 hi2) (by omega))
    rfl rfl

/-- The mocked always-429 provider whose external signal fires during the
backoff sleep that follows the first attempt. -/
def envAbortInSleep : Env := ⟨fun _ => FetchOutcome.resp 429 RespShape.noMessage, some 1⟩

/-- C7 counterexample: the external cancellation signal fires during the
first backoff sleep, yet the run still sleeps the full computed 1000 ms delay
and then issues a second fetch, which aborts immediately; the wait itself
never observes the signal. This refutes the claim that the backoff delay is a
cancellable suspension point that is cut short. -/
theorem backoff_sleep_not_cancellable :
    analyzeMessage (JsInput.str "hello") (JsInput.str "sk-or-key") envAbortInSleep 3
      = RunOutcome.err (JsThrown.aiErr cancelledErr) ⟨2, [backoffDelay 1]⟩
    ∧ backoffDelay 1 = 1000 := ⟨rfl, rfl⟩

/-- C7 (amended): the backoff sleep is not cancellable: when the signal fires
during the sleep after attempt `k` (each attempt up to `k` having failed
retryably), the full delays of attempts 1 to `k` are slept, one further fetch
is issued at attempt `k + 1`, and that fetch aborts at once, propagating the
TIMEOUT cancellation error; the delay is never cut short. -/
theorem backoff_sleep_spec :
    ∀ (message apiKey : JsInput) (env : Env) (n k : Nat) (errs : Nat → JsThrown),
      isBlankInput message = false → isBlankInput apiKey = false →
      1 ≤ k → k < n → env.signalAbortAfter = some k →
      (∀ i, 1 ≤ i → i ≤ k → attemptOnce (effFetch env i) = Except.error (errs i)
        ∧ isRetryableThrow (errs i) = true) →
      analyzeMessage message apiKey env n
        = RunOutcome.err (JsThrown.aiErr cancelledErr) ⟨k + 1, delaysFrom 1 k⟩ := by
  intro message apiKey env n k errs hm hk hk1 hkn hsig hpre
  have heff : effFetch env (k + 1) = FetchOutcome.abortReject := by
    simp only [effFetch, hsig]
    rw [if_pos (by omega)]
  have habort : attemptOnce (effFetch env (k + 1)) = Except.error JsThrown.abortErr := by
    rw [heff]
    rfl
  rw [analyzeMessage_eq_loop hm hk,
    loop_after_prefix env errs n (k + 1) (by omega) (by omega)
      (fun i hi1 hi2 => hpre i hi1 (by omega)),
    loopFrom_abort habort, List.reverse_reverse,
    show k + 1 - 1 = k from by omega]

/-- Witness for C7: the always-429 provider whose signal fires during the
first backoff, through the general statement. -/
theorem backoff_sleep_spec_witness :
    analyzeMessage (JsInput.str "hello") (JsInput.str "sk-or-key") envAbortInSleep 3
      = RunOutcome.err (JsThrown.aiErr cancelledErr) ⟨2, delaysFrom 1 1⟩ := by
  apply backoff_sleep_spec (JsInput.str "hello") (JsInput.str "sk-or-key") envAbortInSleep 3 1
    (fun _ => JsThrown.aiErr rateLimitedErr) rfl rfl (by omega) (by omega) rfl
  intro i hi1 hi2
  have hi : i = 1 := by omega
  subst hi
  exact ⟨rfl, rfl⟩

/-- C10: the blank-message check precedes the blank-key check: a blank,
non-string or whitespace-only message is rejected with the
INVALID_RESPONSE-typed required-message error before any network activity
(zero attempts, for every environment), even when the key is also blank; the
local INVALID_API_KEY-typed required-key error is the run outcome exactly
when the message is non-blank and the key is blank. -/
theorem analyzeMessage_blank_order :
    (∀ (message apiKey : JsInput) (env : Env) (n : Nat), isBlankInput message = true →
      analyzeMessage message apiKey env n = RunOutcome.err (JsThrown.aiErr msgRequiredErr) ⟨0, []⟩)
    ∧ (∀ (message apiKey : JsInput) (env : Env) (n : Nat), 1 ≤ n →
      (analyzeMessage message apiKey env n
          = RunOutcome.err (JsThrown.aiErr keyRequiredErr) ⟨0, []⟩
        ↔ isBlankInput message = false ∧ isBlankInput apiKey = true)) := by
  constructor
  · intro message apiKey env n h
    simp [analyzeMessage, h]
  · intro message apiKey env n hn
    constructor
    · intro h
      by_cases hm : isBlankInput message = true
      · exfalso
        simp only [analyzeMessage, hm, if_true] at h
        injection h with h1 _
        injection h1 with h2
        exact absurd h2 (by decide)
      · have hm' : isBlankInput message = false := by
          revert hm
          cases isBlankInput message <;> simp
        by_cases hkb : isBlankInput apiKey = true
        · exact ⟨hm', hkb⟩
        · exfalso
          have hk' : isBlankInput apiKey = false := by
            revert hkb
            cases isBlankInput apiKey <;> simp
          rw [analyzeMessage_eq_loop hm' hk'] at h
          have hge := loopFrom_attempts_ge env n 1 [] none (by omega)
          have htr := congrArg RunOutcome.trace h
          have hat := congrArg RunTrace.attempts htr
          rw [hat] at hge
          simp [RunOutcome.trace] at hge
    · rintro ⟨hm, hkb⟩
      simp [analyzeMessage, hm, hkb]

/-- Witness for C10: a whitespace-only message is rejected as a missing
message even though the key is also blank, and a blank key with a non-blank
message is rejected as a missing key, both with zero attempts. -/
theorem analyzeMessage_blank_order_witness :
    analyzeMessage (JsInput.str "   ") JsInput.undef env500 3
      = RunOutcome.err (JsThrown.aiErr msgRequiredErr) ⟨0, []⟩
    ∧ analyzeMessage (JsInput.str "hello") (JsInput.str "") env500 3
      = RunOutcome.err (JsThrown.aiErr keyRequiredErr) ⟨0, []⟩ :=
  ⟨analyzeMessage_blank_order.1 (JsInput.str "   ") JsInput.undef env500 3 rfl,
   (analyzeMessage_blank_order.2 (JsInput.str "hello") (JsInput.str "") env500 3
      (by omega)).mpr ⟨rfl, rfl⟩⟩

/-- The four UI states of `CHAT_STATUS` in useChat.js. -/
inductive ChatStatus where
  | idle
  | scanning
  | complete
  | error
deriving DecidableEq, Repr

/-- A user-facing error record `{type, message}` as `submitMessage` builds
it. -/
structure ErrorInfo where
  etype : String
  emsg : String
deriving DecidableEq, Repr

/-- The string value of each `AI_ERROR_TYPES` member. -/
def errTypeName : ErrType → String
  | .INVALID_API_KEY => "INVALID_API_KEY"
  | .RATE_LIMITED => "RATE_LIMITED"
  | .NETWORK_ERROR => "NETWORK_ERROR"
  | .INVALID_RESPONSE => "INVALID_RESPONSE"
  | .SERVER_ERROR => "SERVER_ERROR"
  | .TIMEOUT => "TIMEOUT"
  | .UNKNOWN => "UNKNOWN"

/-- The switch of `submitMessage` translating an AIError to a user-facing
record (useChat.js lines 157-194); the default branch keeps the error type
and message. -/
def errorInfoFor (e : AIError) : ErrorInfo :=
  match e.type with
  | .INVALID_API_KEY => ⟨"INVALID_API_KEY", "Your API key is invalid. Please check and update it."⟩
  | .RATE_LIMITED => ⟨"RATE_LIMITED", "Too many requests. Please wait a moment and try again."⟩
  | .NETWORK_ERROR => ⟨"NETWORK_ERROR", "Network error. Please check your internet connection."⟩
  | .TIMEOUT => ⟨"TIMEOUT", "Request timed out. Please try again."⟩
  | .SERVER_ERROR => ⟨"SERVER_ERROR", "Server error. Please try again in a moment."⟩
  | t => ⟨errTypeName t, e.msg⟩

/-- The session state owned by the `useChat` hook: status, current result,
current error record, and the persisted history. -/
structure SessionState where
  status : ChatStatus
  result : Option JSValue
  errInfo : Option ErrorInfo
  history : List HistoryEntry

/-- The synchronous prologue of `submitMessage` after its local validation
(useChat.js lines 100-114): abort any previous controller, create a new one,
set scanning and clear the previous error and result. -/
def submitStart (st : SessionState) : SessionState :=
  { st with status := ChatStatus.scanning, errInfo := none, result := none }

/-- The asynchronous continuation of `submitMessage` (useChat.js lines
116-209), applied to whatever session state holds when the continuation runs:
on success store the result, mark complete and append to the capped history;
on an AIError store its translated record and mark error; on a bare
AbortError return to idle silently; on any other throw store the generic
unknown record. There is no liveness check against a request identity: only
an unmount check guards these writes. -/
def applyOutcome (mkEntry : JSValue → HistoryEntry) (st : SessionState)
    (out : RunOutcome) : SessionState :=
  match out with
  | RunOutcome.ok v _ =>
    { st with
      result := some v
      status := ChatStatus.complete
      history := sliceLast50 (st.history ++ [mkEntry v]) }
  | RunOutcome.err e _ =>
    match e with
    | JsThrown.aiErr a => { st with errInfo := some (errorInfoFor a), status := ChatStatus.error }
    | JsThrown.abortErr => { st with status := ChatStatus.idle }
    | _ =>
      { st with
        errInfo := some ⟨"UNKNOWN", "An unexpected error occurred"⟩
        status := ChatStatus.error }

/-- The environment of a request whose controller has been aborted by a
newer submission: its fetch rejects at once with an AbortError. -/
def envAbortedFetch : Env := ⟨fun _ => FetchOutcome.abortReject, none⟩

set_option maxRecDepth 40000 in
/-- C1 (code bug): a superseded request's fetch rejects with an AbortError,
which `analyzeMessage` rethrows as the TIMEOUT-typed cancelled AIError, so
the superseded continuation matches the AIError branch of the catch in
`submitMessage` and overwrites the newer request's scanning state with an
error state; the silent-idle branch for a bare AbortError (the third
conjunct) is unreachable for outcomes of `analyzeMessage`. -/
theorem superseded_outcome_applied :
    analyzeMessage (JsInput.str "first message") (JsInput.str "sk-or-key") envAbortedFetch 3
      = RunOutcome.err (JsThrown.aiErr cancelledErr) ⟨1, []⟩
    ∧ applyOutcome (fun v => ⟨"id1", "t1", "first message", v, "m"⟩)
        (submitStart ⟨ChatStatus.complete, none, none, []⟩)
        (analyzeMessage (JsInput.str "first message") (JsInput.str "sk-or-key") envAbortedFetch 3)
      = ⟨ChatStatus.error, none,
          some ⟨"TIMEOUT", "Request timed out. Please try again."⟩, []⟩
    ∧ applyOutcome (fun v => ⟨"id1", "t1", "first message", v, "m"⟩)
        (submitStart ⟨ChatStatus.complete, none, none, []⟩)
        (RunOutcome.err JsThrown.abortErr ⟨1, []⟩)
      = ⟨ChatStatus.idle, none, none, []⟩ := ⟨rfl, rfl, rfl⟩

end MC
